import Mathlib

set_option maxHeartbeats 1000000

/-!
Shallow embedding of the MLIR fusion pass (`src/targets/gpu/fuse_mlir.cpp`)
of the MIGraphX tensor-graph compiler, together with theorems checking the
natural-language specification against it.

Machine integers of the source (`size_t` lengths, counts) are modelled as
`Nat`; the quantities involved (tensor ranks, dimension sizes, list lengths)
never overflow in the source's domain and the source performs no wrap-around
arithmetic on them.  Strings are modelled as Lean `String`.  The graph model
(modules of instructions) follows the source's data model: a module is an
ordered sequence of instructions with stable identifiers, an instruction has
an operation descriptor, a result shape, input references and sub-module
references.
-/

/-- Element types of `migraphx::shape::type_t` that the fusion pass inspects,
plus a few others (`int64`, `float64`, `uint8`) so that "a type outside the
whitelist" is representable. -/
inductive MType where
  | float32
  | half
  | fp8e4m3fnuz
  | int8
  | int32
  | boolType
  | int64
  | float64
  | uint8
deriving DecidableEq

/-- A tensor shape: element type, dimensions (`lens()`), and the two
packing predicates the pass queries (`packed()`, `broadcasted()`), which in
the source are derived from strides; strides themselves are not inspected
by the fused-op code, only these two predicates, so the model stores the
predicates directly. -/
structure TShape where
  ttype : MType
  lens : List Nat
  packed : Bool
  broadcasted : Bool
deriving DecidableEq

/-- A migraphx shape: either a tensor shape or a tuple of tensor shapes
(`shape{result}` built from sub-shapes).  The fusion pass only ever builds
one level of tuples (the multi-output fused op), so nested tuples are not
modelled. -/
inductive MShape where
  | t (s : TShape)
  | tup (ss : List TShape)
deriving DecidableEq

instance : Inhabited MShape := ⟨.t ⟨.float32, [], true, false⟩⟩

def MShape.lens : MShape → List Nat
  | .t s => s.lens
  | .tup _ => []

def MShape.ttype : MShape → MType
  | .t s => s.ttype
  | .tup _ => .float32

/-- `shape.packed() or shape.broadcasted()`; on a tuple shape the source
would throw, modelled as `false` (it only feeds error paths). -/
def MShape.packedOrBroadcasted : MShape → Bool
  | .t s => s.packed || s.broadcasted
  | .tup _ => false

/-- `shape.as_standard()`: same type and lens, standard (packed,
non-broadcast) layout. -/
def MShape.asStandard : MShape → MShape
  | .t s => .t ⟨s.ttype, s.lens, true, false⟩
  | .tup ss => .tup ss

/-- Operation descriptor: a name plus the attribute values the pass reads or
writes (`dims` of reshape/broadcast ops, `index` of `get_tuple_elem` and of
`@param` slots, `group` of convolutions).  `mlirOp` is the fused macro-node
operation `gpu::mlir_op`, which nests its anchor operation (field `op`). -/
inductive Op where
  | prim (name : String) (dims : List Nat) (index : Nat) (group : Nat)
  | mlirOp (anchor : Op)
deriving DecidableEq

def Op.name : Op → String
  | .prim n _ _ _ => n
  | .mlirOp _ => "gpu::mlir_op"

def Op.dims : Op → List Nat
  | .prim _ d _ _ => d
  | .mlirOp _ => []

def Op.index : Op → Nat
  | .prim _ _ i _ => i
  | .mlirOp _ => 0

def Op.group : Op → Nat
  | .prim _ _ _ g => g
  | .mlirOp _ => 1

def Op.simple (n : String) : Op := .prim n [] 0 1

def Op.reshape (dims : List Nat) : Op := .prim "reshape" dims 0 1

def Op.multibroadcast (dims : List Nat) : Op := .prim "multibroadcast" dims 0 1

def Op.getTupleElem (i : Nat) : Op := .prim "get_tuple_elem" [] i 1

/-- A module parameter; `k` is the parameter's positional slot (the source
names parameters `x0, x1, ...` / `y0, y1, ...` and maps them positionally,
sorted by name). -/
def Op.param (k : Nat) : Op := .prim "@param" [] k 1

def Op.literal : Op := .prim "@literal" [] 0 1

def Op.ret : Op := .prim "@return" [] 0 1

def Op.contiguous : Op := .prim "contiguous" [] 0 1

/-- An instruction: operation, result shape, input references (stable
instruction identifiers) and sub-module references (indices into a module
store). -/
structure Inst where
  op : Op
  shape : MShape
  inputs : List Nat
  modArgs : List Nat
deriving DecidableEq

/-- A module: instructions in program order, keyed by stable identifiers
(modelling migraphx's stable `instruction_ref` iterators), plus the next
fresh identifier. -/
structure MModule where
  insts : List (Nat × Inst)
  nextId : Nat
deriving DecidableEq

def MModule.empty : MModule := ⟨[], 0⟩

instance : Inhabited MModule := ⟨MModule.empty⟩

def MModule.lookup (m : MModule) (i : Nat) : Option Inst :=
  (m.insts.find? (fun p => p.1 == i)).map Prod.snd

def MModule.lookupShape (m : MModule) (i : Nat) : MShape :=
  ((m.lookup i).map Inst.shape).getD default

/-- `module::add_instruction` (append at end); returns the new module and the
new instruction's identifier. -/
def MModule.addInst (m : MModule) (ins : Inst) : MModule × Nat :=
  (⟨m.insts ++ [(m.nextId, ins)], m.nextId + 1⟩, m.nextId)

/-- `module::insert_instruction(pos, ...)`: insert before the instruction
with identifier `pos` (appends at the end when `pos` is absent, like
inserting before `end()`). -/
def MModule.insertBefore (m : MModule) (pos : Nat) (ins : Inst) : MModule × Nat :=
  let idx := m.insts.findIdx (fun p => p.1 == pos)
  (⟨m.insts.take idx ++ [(m.nextId, ins)] ++ m.insts.drop idx, m.nextId + 1⟩, m.nextId)

/-- `module::insert_instruction(std::next(pos), ...)`: insert right after the
instruction with identifier `pos`. -/
def MModule.insertAfter (m : MModule) (pos : Nat) (ins : Inst) : MModule × Nat :=
  let idx := m.insts.findIdx (fun p => p.1 == pos) + 1
  (⟨m.insts.take idx ++ [(m.nextId, ins)] ++ m.insts.drop idx, m.nextId + 1⟩, m.nextId)

/-- Modelled from the spec: `module::replace_instruction(ins, rep)` of the
Graph Model collaborator (not under `src/`) — "replacing a node preserves
all of its output references by redirecting them to the replacement": every
use of `old` as an input is redirected to `rep`; the old instruction itself
stays in place (until dead-code elimination). -/
def MModule.replaceUses (m : MModule) (old rep : Nat) : MModule :=
  ⟨m.insts.map (fun p =>
      (p.1, { p.2 with inputs := p.2.inputs.map (fun j => if j == old then rep else j) })),
    m.nextId⟩

/-- Modelled from the spec: `module::replace_instruction(ins, op, args, mods)`
of the Graph Model collaborator — the instruction keeps its identity (all
consumers keep pointing at it) but its operation, inputs, sub-modules and
shape are replaced in place. -/
def MModule.replaceWith (m : MModule) (pos : Nat) (op : Op) (inputs : List Nat)
    (modArgs : List Nat) (sh : MShape) : MModule :=
  ⟨m.insts.map (fun p => if p.1 == pos then (p.1, ⟨op, sh, inputs, modArgs⟩) else p),
    m.nextId⟩

/-- Modelled from the spec: `module::move_instruction(src, dst)` of the Graph
Model collaborator — "move changes ordering position only": the instruction
is moved before `dst` in program order, keeping its identity. -/
def MModule.moveInstruction (m : MModule) (src dst : Nat) : MModule :=
  match m.insts.find? (fun p => p.1 == src) with
  | none => m
  | some entry =>
    let rest := m.insts.filter (fun p => p.1 ≠ src)
    let idx := rest.findIdx (fun p => p.1 == dst)
    ⟨rest.take idx ++ [entry] ++ rest.drop idx, m.nextId⟩

/-- Number of uses of instruction `i` (the size of `ins->outputs()`,
counting one entry per input occurrence). -/
def MModule.outputsCount (m : MModule) (i : Nat) : Nat :=
  (m.insts.map (fun p => p.2.inputs.count i)).sum

/-- The operand list of the module's (last) `@return` instruction. -/
def MModule.lastReturn (m : MModule) : Option (List Nat) :=
  ((m.insts.filter (fun p => p.2.op.name == "@return")).getLast?).map (fun p => p.2.inputs)

/-- Modelled from the spec: the Graph Model collaborator's shape inference
(`op::compute_shape` called by `add_instruction`), for the operations the
pass re-creates.  Shape inference is an external collaborator ("shape/type
inference ... is consumed as a given API"); only the cases the claims touch
are given meaning, everything else keeps its first input's shape. -/
def inferShape (op : Op) (ins : List MShape) : MShape :=
  let fst := ins.headD default
  match op with
  | .mlirOp _ => fst
  | .prim n dims idx _ =>
    if n = "reshape" then .t ⟨fst.ttype, dims, true, false⟩
    else if n = "multibroadcast" || n = "broadcast" then .t ⟨fst.ttype, dims, false, true⟩
    else if n = "contiguous" then .t ⟨fst.ttype, fst.lens, true, false⟩
    else if n = "transpose" then .t ⟨fst.ttype, dims.map (fun a => fst.lens.getD a 0), fst.lens ≠ [], false⟩
    else if n = "get_tuple_elem" then
      match fst with
      | .tup ss => .t (ss.getD idx ⟨.float32, [], true, false⟩)
      | .t s => .t s
    else fst

/-! ## Environment-variable option parsing (`MIGRAPHX_MLIR_USE_SPECIFIC_OPS`) -/

/-- `is_negated_op`: whether the option string starts with `!` or `~`. -/
def isNegatedOp (s : String) : Bool :=
  match s.data with
  | [] => false
  | c :: _ => c == '!' || c == '~'

/-- `remove_not_symbol`: drop the leading negation character. -/
def removeNotSymbol (s : String) : String :=
  if isNegatedOp s then ⟨s.data.tail⟩ else s

/-- `split_string(s, ',')`: split on commas (executable recursion over the
character list). -/
def splitCommaAux (cur : List Char) : List Char → List String
  | [] => [⟨cur.reverse⟩]
  | c :: cs => if c = ',' then ⟨cur.reverse⟩ :: splitCommaAux [] cs
               else splitCommaAux (c :: cur) cs

def splitComma (s : String) : List String := splitCommaAux [] s.data

/-- `get_usage<Action>()`: split the environment string on commas, keep the
non-empty entries whose negation state matches the action (`requested`
keeps plain entries, `rejected` keeps negated entries), and strip the
negation symbol.  The source reads the environment variable once and caches
it; the model passes the string explicitly. -/
def getUsage (env : String) (enabled : Bool) : List String :=
  ((splitComma env).filter
      (fun o => o ≠ "" && (if isNegatedOp o then !enabled else enabled))).map
    removeNotSymbol

/-- List-of-chars matcher: `p` is a leading segment of `l`. -/
def lcLeads : List Char → List Char → Bool
  | [], _ => true
  | _ :: _, [] => false
  | a :: as, b :: bs => a == b && lcLeads as bs

/-- List-of-chars substring search: `n` occurs contiguously inside the
second argument. -/
def lcSub (n : List Char) : List Char → Bool
  | [] => n.isEmpty
  | b :: bs => lcLeads n (b :: bs) || lcSub n bs

/-- `contains(std::string_view s, std::string_view t)`: `t` is a substring
of `s`. -/
def strContains (s t : String) : Bool := lcSub t.data s.data

/-- `specific_op<Action>(option, fallback)`. -/
def specificOp (env : String) (enabled : Bool) (option : String) (fallback : Bool) : Bool :=
  let options := getUsage env enabled
  if options.isEmpty then fallback
  else if strContains option "fused" && options.contains "fused" then true
  else options.contains option

/-! ## Reshape-class operations and the input-chain walk -/

/-- `reshaper_names()`. -/
def reshaperNames : List String :=
  ["slice", "transpose", "multibroadcast", "broadcast", "contiguous",
   "reshape", "squeeze", "flatten", "unsqueeze"]

/-- `get_fusable_input_op_stream`, fuelled: starting at instruction `i`,
while the instruction's name is a reshape-class name, record its operation
(squeeze/flatten/unsqueeze are converted to a `reshape` to the instruction's
output dims) and move to its first input.  Returns the first
non-reshape-class instruction reached and the recorded operation stream
(outermost first, as pushed by the source's loop). -/
def getStreamFuel (m : MModule) : Nat → Nat → Nat × List Op
  | 0, i => (i, [])
  | fuel + 1, i =>
    match m.lookup i with
    | none => (i, [])
    | some ins =>
      if reshaperNames.contains ins.op.name then
        let op := if ["squeeze", "flatten", "unsqueeze"].contains ins.op.name then
            Op.reshape ins.shape.lens
          else ins.op
        let rest := getStreamFuel m fuel (ins.inputs.headD 0)
        (rest.1, op :: rest.2)
      else (i, [])

/-- `get_fusable_input_op_stream(lower_input)`: fuel `i + 1` covers any chain
in a well-formed module (inputs have strictly smaller identifiers). -/
def getFusableInputOpStream (m : MModule) (i : Nat) : Nat × List Op :=
  getStreamFuel m (i + 1) i

/-- Well-formedness of a module as a DAG with stable identifiers: inputs
point strictly backwards, identifiers are below `nextId`, and reshape-class
instructions have at least one input (the source dereferences
`inputs().at(0)` on them). -/
def MModule.Wf (m : MModule) : Prop :=
  (∀ p ∈ m.insts, ∀ j ∈ p.2.inputs, j < p.1) ∧
  (∀ p ∈ m.insts, p.1 < m.nextId) ∧
  (∀ p ∈ m.insts, p.2.op.name ∈ reshaperNames → p.2.inputs ≠ [])

instance (m : MModule) : Decidable m.Wf := by
  unfold MModule.Wf
  infer_instance

/-! ## GEMM / convolution eligibility predicates -/

/-- `mlir_mode`. -/
inductive MlirMode where
  | all
  | fast
  | int8
  | none
deriving DecidableEq

/-- `is_mlir_dot(mode)` applied to an instruction of module `m`. -/
def isMlirDot (m : MModule) (mode : MlirMode) (ins : Inst) : Bool :=
  if mode = MlirMode.none then false
  else if ins.op.name ≠ "dot" && ins.op.name ≠ "quant_dot" then false
  -- dot operation where (FP8 * FP8 = FP8) is not available in MLIR
  else if ins.shape.ttype = MType.fp8e4m3fnuz then false
  else if mode ≠ MlirMode.fast then true
  else
    let a := m.lookupShape (ins.inputs.headD 0)
    let _b := m.lookupShape (ins.inputs.getLastD 0)
    let k := a.lens.getLastD 0
    k ≤ 1024

/-- `is_mlir_conv(mode)` applied to an instruction of module `m`. -/
def isMlirConv (m : MModule) (mode : MlirMode) (ins : Inst) : Bool :=
  if mode = MlirMode.none then false
  else if ins.op.name ≠ "convolution" && ins.op.name ≠ "quant_convolution" then false
  else
    let input := m.lookupShape (ins.inputs.headD 0)
    let group := ins.op.group
    -- Avoid MLIR assertion: Index < Length && "Invalid index!"
    if ins.shape.lens.length ≠ 4 && group > 1 then false
    else if input.ttype = MType.fp8e4m3fnuz || input.ttype = MType.int8 then true
    else if mode = MlirMode.all then true
    -- No windograd for group convolution
    else if group > 1 then true
    else
      let w := m.lookupShape (ins.inputs.getD 1 0)
      if w.lens.length ≠ 4 then true
      else if w.lens.getD 2 0 ≠ w.lens.getD 3 0 then true
      else (w.lens.getD 3 0) % 3 ≠ 0

/-! ## Pointwise / reduce legality predicates -/

/-- The `allowed_types` initializer list of
`is_pointwise_op_supported_by_mlir`. -/
def allowedPointwiseTypes : List MType :=
  [.float32, .half, .fp8e4m3fnuz, .int8, .int32, .boolType]

/-- The `any_type_ops` initializer list. -/
def anyTypeOps : List String := ["@literal", "@param", "@return"]

/-- The `no_bool_ops` initializer list. -/
def noBoolOps : List String :=
  ["convolution", "quant_convolution", "dot", "quant_dot", "add", "clip", "relu",
   "sub", "mul", "div", "pow", "where", "quantizelinear", "dequantizelinear",
   "abs", "neg"]

/-- The `fp_only_ops` initializer list. -/
def fpOnlyOps : List String :=
  ["ceil", "erf", "exp", "floor", "log", "recip", "sqrt", "rsqrt", "sigmoid",
   "softmax", "tanh"]

/-- The floating result types (`is_float`). -/
def floatTypes : List MType := [.float32, .half, .fp8e4m3fnuz]

/-- `is_pointwise_op_supported_by_mlir(i)`; input element types are looked
up in the instruction's module `m`. -/
def isPointwiseOpSupportedByMlir (m : MModule) (ins : Inst) : Bool :=
  let name := ins.op.name
  let resultType := ins.shape.ttype
  if !(allowedPointwiseTypes.contains resultType) then false
  else
    let isFloat := floatTypes.contains resultType
    if anyTypeOps.contains name then true
    else if resultType ≠ MType.boolType && noBoolOps.contains name then true
    else if isFloat && fpOnlyOps.contains name then true
    -- Only conversions between floating types are known to be unambiguously supported
    else if isFloat && name = "convert" then
      if resultType = MType.fp8e4m3fnuz then false
      else ins.inputs.all (fun j =>
        [MType.float32, MType.half].contains (m.lookupShape j).ttype)
    else false

/-! ## The macro-node's shape computation (`mlir_op::compute_shape`) -/

/-- Modelled from the spec: `module::compute_shapes` of the Graph Model
collaborator ("shape/type inference ... consumed as a given API") — the
sub-region's output shapes, read off the operands of its return
instruction. -/
def MModule.outputShapes (m : MModule) : List TShape :=
  match m.lastReturn with
  | some vals => vals.map (fun v =>
      match m.lookupShape v with
      | .t s => s
      | .tup _ => ⟨.float32, [], true, false⟩)
  | none => []

/-- `mlir_op::compute_shape(inputs, mods)`: the inputs must each be packed
or broadcasted (`check_shapes`), there must be exactly one sub-module and at
least two inputs, and the result is the sub-module's single output shape, or
the tuple of its output shapes. -/
def mlirOpComputeShape (inputs : List MShape) (mods : List MModule) : Except String MShape :=
  if !(inputs.all MShape.packedOrBroadcasted) then
    .error "packed or broadcasted"
  else if mods.length ≠ 1 then .error "should have one submodule."
  else if inputs.length < 2 then .error "should have at least two inputs."
  else
    let result := (mods.headD MModule.empty).outputShapes
    if result.length = 1 then .ok (.t (result.headD ⟨.float32, [], true, false⟩))
    else .ok (.tup result)

/-- The shape a freshly inserted fused macro-node gets (defaulted on the
error path, which the apply steps never take for the graphs the claims
quantify over). -/
def mlirOpShapeD (inputs : List MShape) (mods : List MModule) : MShape :=
  ((mlirOpComputeShape inputs mods).toOption).getD default

/-! ## Reachability and the reshape chain between pointwise input and GEMM -/

/-- `reaches(a, b)` of the dataflow graph, fuelled: there is a dataflow path
from instruction `a` forward to instruction `b`, i.e. `b` is `a` or some
input chain of `b` leads to `a`. -/
def reachesFuel (m : MModule) : Nat → Nat → Nat → Bool
  | 0, a, b => a == b
  | fuel + 1, a, b =>
    a == b ||
      match m.lookup b with
      | none => false
      | some ins => ins.inputs.any (fun j => reachesFuel m fuel a j)

/-- Modelled from the spec: `reaches(a, b)` of the graph-algorithm
collaborator (not under `src/`) — whether the pointwise input `b` depends on
the GEMM `a`.  Fuel `b + 1` covers every path in a well-formed module
(inputs have strictly smaller identifiers). -/
def reaches (m : MModule) (a b : Nat) : Bool := reachesFuel m (b + 1) a b

/-- The `reshapes_vec` loop of `find_mlir_fused_ops::apply`: the chain of
instructions from `x` (the pointwise input) down to `g` (the GEMM),
inclusive, following first inputs. -/
def chainToFuel (m : MModule) : Nat → Nat → Nat → List Nat
  | 0, i, _ => [i]
  | fuel + 1, i, g =>
    if i == g then [i]
    else
      match m.lookup i with
      | none => [i]
      | some ins => i :: chainToFuel m fuel (ins.inputs.headD 0) g

def chainTo (m : MModule) (x g : Nat) : List Nat := chainToFuel m (x + 1) x g

/-- Association-list lookup for the instruction maps (`param_map`,
`map_ins`) the fusion rules thread around. -/
def lookupMap (mp : List (Nat × Nat)) (k : Nat) : Option Nat :=
  ((mp.find? (fun p => p.1 == k)).map Prod.snd)

/-! ## Building the fused region -/

/-- Re-apply a recorded operation stream starting from `prev` inside `mm`
(the `for op in reverse(op_stream)` loops of the fusion builders; the caller
passes the stream already reversed). -/
def replayOps (ops : List Op) (mm : MModule) (prev : Nat) : MModule × Nat :=
  ops.foldl
    (fun (acc2 : MModule × Nat) op =>
      match acc2 with
      | (mm, prev) => mm.addInst ⟨op, inferShape op [mm.lookupShape prev], [prev], []⟩)
    (mm, prev)

/-- One iteration of the input loop of `fuse_input_ops_and_gemm_based_op`. -/
def fuseInputStep (main : MModule) (acc : MModule × List Nat × List Nat × Nat)
    (input : Nat) : MModule × List Nat × List Nat × Nat :=
  match acc with
  | (mm, immInputs, topInputs, cnt) =>
    let us := getFusableInputOpStream main input
    let pr := mm.addInst ⟨Op.param cnt, (main.lookupShape us.1).asStandard, [], []⟩
    let rp := replayOps us.2.reverse pr.1 pr.2
    (rp.1, immInputs ++ [rp.2], topInputs ++ [us.1], cnt + 1)

/-- `fuse_input_ops_and_gemm_based_op(mm, gemm_based_op_inputs, gemm_based_op)`:
for each input of the GEMM/convolution, walk its reshape chain up
(`get_fusable_input_op_stream`), declare a fresh parameter of the upper
input's standard shape in `mm`, re-apply the recorded chain in reverse on
it, and finally add the anchor operation on the resulting immediate inputs.
Returns the new module contents, the anchor's identifier in `mm`, and the
`top_inputs` (the pre-reshape instructions in the surrounding module). -/
def fuseInputOpsAndGemm (mm : MModule) (main : MModule) (gemmInputs : List Nat)
    (gemmOp : Op) : MModule × Nat × List Nat :=
  let folded := gemmInputs.foldl (fuseInputStep main) (mm, [], [], 0)
  match folded with
  | (mm, immInputs, topInputs, _) =>
    let ar := mm.addInst
      ⟨gemmOp, inferShape gemmOp (immInputs.map mm.lookupShape), immInputs, []⟩
    (ar.1, ar.2, topInputs)

/-- One iteration of `create_param_map_with_literals`. -/
def paramMapStep (sh : MShape) (acc : MModule × List (Nat × Nat)) (p : Nat × Inst) :
    MModule × List (Nat × Nat) :=
  match acc with
  | (mm, mp) =>
    if p.2.op.name ≠ "@literal" then (mm, mp)
    else
      let lr := mm.addInst ⟨Op.literal, p.2.shape, [], []⟩
      let br := lr.1.addInst
        ⟨Op.multibroadcast sh.lens, inferShape (Op.multibroadcast sh.lens) [p.2.shape],
          [lr.2], []⟩
      (br.1, mp ++ [(p.1, br.2)])

/-- `create_param_map_with_literals(mm, pm, shape)`: for every literal of the
pointwise module `pm`, add the literal to `mm` followed by a multibroadcast
to `shape.lens`, and record the mapping from the `pm` literal to the
broadcast.  Returns the extended module and the map (keyed by `pm`
identifiers). -/
def createParamMapWithLiterals (mm : MModule) (pm : MModule) (sh : MShape) :
    MModule × List (Nat × Nat) :=
  pm.insts.foldl (paramMapStep sh) (mm, [])

/-- One iteration of the region-splice walk (see `MModule.fuseM`). -/
def fuseMStep (main : MModule) (inputs : List Nat)
    (acc : MModule × List Nat × List (Nat × Nat) × List (Nat × Nat)) (p : Nat × Inst) :
    MModule × List Nat × List (Nat × Nat) × List (Nat × Nat) :=
  match acc with
  | (mm, rets, pmM, mainM) =>
    let nm := p.2.op.name
    if nm = "@param" then
      let v := inputs.getD p.2.op.index 0
      match lookupMap mainM v with
      | some w => (mm, rets, pmM ++ [(p.1, w)], mainM)
      | none =>
        let qr := mm.addInst ⟨Op.param p.2.op.index, (main.lookupShape v).asStandard, [], []⟩
        (qr.1, rets, pmM ++ [(p.1, qr.2)], mainM ++ [(v, qr.2)])
    else if nm = "@literal" then (mm, rets, pmM, mainM)
    else if nm = "@return" then
      (mm, p.2.inputs.map (fun j => (lookupMap pmM j).getD 0), pmM, mainM)
    else
      let mapped := p.2.inputs.map (fun j => (lookupMap pmM j).getD 0)
      let qr := mm.addInst ⟨p.2.op, p.2.shape, mapped, []⟩
      (qr.1, rets, pmM ++ [(p.1, qr.2)], mainM)

/-- Modelled from the spec: `module::fuse(m, inputs, map_ins)` of the Graph
Model collaborator (not under `src/`) — "splice/inline-a-region-into-another
-with-parameter-remapping": walk the region `pm` in order; a parameter in
slot `k` stands for the caller-side value `inputs[k]` and maps to its image
under `mainMap` if present, else to a freshly declared parameter of `mm`;
literals are already mapped (by `create_param_map_with_literals`) in
`pmMap`; the return instruction yields the mapped return values; every other
instruction is copied with remapped inputs.  Returns the extended module,
the mapped return values, and the two extended maps. -/
def MModule.fuseM (mm : MModule) (main : MModule) (pm : MModule) (inputs : List Nat)
    (pmMap mainMap : List (Nat × Nat)) :
    MModule × List Nat × List (Nat × Nat) × List (Nat × Nat) :=
  pm.insts.foldl (fuseMStep main inputs) (mm, [], pmMap, mainMap)

/-- One iteration of `mlir_contiguous`. -/
def contigStep (acc : MModule × List Nat) (input : Nat) : MModule × List Nat :=
  match acc with
  | (m, res) =>
    let sh := m.lookupShape input
    if sh.packedOrBroadcasted then (m, res ++ [input])
    else
      let cr := m.insertAfter input ⟨Op.contiguous, inferShape Op.contiguous [sh], [input], []⟩
      (cr.1, res ++ [cr.2])

/-- `mlir_contiguous(mpm, inputs)`: any input that is neither packed nor
broadcasted gets a `contiguous` copy inserted right after it; returns the
updated surrounding module and the (possibly redirected) input list. -/
def mlirContiguous (main : MModule) (inputs : List Nat) : MModule × List Nat :=
  inputs.foldl contigStep (main, [])

/-- The pass state seen by an apply step: the surrounding module plus the
store of created sub-modules (`mpm.create_module` appends to the store). -/
structure MPM where
  main : MModule
  mods : List MModule
deriving DecidableEq

/-- The `gemm_has_multi_outs` computation of `find_mlir_fused_ops::apply`:
the GEMM has more than one consumer, or some reshape instruction strictly
between the pointwise input `x` and the GEMM has more than one consumer. -/
def gemmHasMultiOuts (main : MModule) (gemmId xId : Nat) : Bool :=
  main.outputsCount gemmId > 1 ||
    ((chainTo main xId gemmId).dropLast.any (fun r => main.outputsCount r > 1))

/-- `find_mlir_fused_ops::apply` on a successful match: `pwIns` is the
matched pointwise instruction, `gemmId` the GEMM/convolution bound as
`gemm_based_op`, `xId` the pointwise input bound as `x` (reachable from
`pwIns` through the reshape chain).  Mirrors the source line by line; the
sub-module is created in the store, and the surrounding module is rewritten
according to the single- or multi-consumer case. -/
def applyFusedOps (mpm : MPM) (pwIns gemmId xId : Nat) : MPM :=
  match mpm.main.lookup pwIns, mpm.main.lookup gemmId with
  | some pw, some gemm =>
    let main := mpm.main
    -- only one of the inputs to the pointwise module may depend on the
    -- conv/gemm being fused, otherwise the transformation is invalid
    if pw.inputs.any (fun i => i ≠ xId && reaches main gemmId i) then mpm
    else
      let pm := mpm.mods.getD (pw.modArgs.headD 0) MModule.empty
      let fr := fuseInputOpsAndGemm MModule.empty main gemm.inputs gemm.op
      let mm := fr.1
      let anchor := fr.2.1
      let topInputs := fr.2.2
      let cr := createParamMapWithLiterals mm pm pw.shape
      let mm := cr.1
      let pmMap := cr.2
      let opStream := (getFusableInputOpStream main xId).2
      let rr := replayOps opStream.reverse mm anchor
      let mm := rr.1
      let prev := rr.2
      -- avoid adding a parameter for the reshaped gemm/conv input
      let mainMap := [(xId, prev)]
      let multiOuts := gemmHasMultiOuts main gemmId xId
      let reshapesVec := chainTo main xId gemmId
      let fuseR := mm.fuseM main pm pw.inputs pmMap mainMap
      let mm := fuseR.1
      let returnVals := if multiOuts then anchor :: fuseR.2.1 else fuseR.2.1
      let mm := (mm.addInst ⟨Op.ret, default, returnVals, []⟩).1
      let inputs := pw.inputs.filter (fun i => i ≠ xId) ++ topInputs
      let mmIdx := mpm.mods.length
      let newMods := mpm.mods ++ [mm]
      let cg := mlirContiguous main inputs
      let main := cg.1
      let contig := cg.2
      let fusedShape := mlirOpShapeD (contig.map main.lookupShape) [mm]
      if multiOuts then
        let fr2 := main.insertBefore pwIns ⟨Op.mlirOp gemm.op, fusedShape, contig, [mmIdx]⟩
        let main := fr2.1
        let fusedId := fr2.2
        let main := main.replaceWith pwIns (Op.getTupleElem 1) [fusedId] []
          (inferShape (Op.getTupleElem 1) [fusedShape])
        let dr := main.insertBefore pwIns
          ⟨Op.getTupleElem 0, inferShape (Op.getTupleElem 0) [fusedShape], [fusedId], []⟩
        let main := dr.1
        let dotId := dr.2
        -- move the reshape instructions and the original GEMM after the
        -- fused op to avoid generating an invalid program
        let main := reshapesVec.reverse.foldl (fun m r => m.moveInstruction r pwIns) main
        let main := main.replaceUses gemmId dotId
        ⟨main, newMods⟩
      else
        let main := main.replaceWith pwIns (Op.mlirOp gemm.op) contig [mmIdx] fusedShape
        ⟨main, newMods⟩
  | _, _ => mpm

/-- `find_mlir_standalone_op::apply` on a matched GEMM/convolution
`gemmId`: restricted to float32/float16/int8/fp8 operand types; builds a
region of the absorbed input chains followed by the anchor as sole return
and replaces the matched instruction with the macro-node. -/
def applyStandaloneOp (mpm : MPM) (gemmId : Nat) : MPM :=
  match mpm.main.lookup gemmId with
  | none => mpm
  | some gemm =>
    -- enable only for fp32/fp16/i8/fp8 types
    if gemm.inputs.any (fun i =>
        !([MType.float32, MType.half, MType.int8, MType.fp8e4m3fnuz].contains
          (mpm.main.lookupShape i).ttype)) then mpm
    else
      let fr := fuseInputOpsAndGemm MModule.empty mpm.main gemm.inputs gemm.op
      let mm := fr.1
      let anchor := fr.2.1
      let topInputs := fr.2.2
      let mm := (mm.addInst ⟨Op.ret, default, [anchor], []⟩).1
      let mmIdx := mpm.mods.length
      let cg := mlirContiguous mpm.main topInputs
      let main := cg.1
      let contig := cg.2
      let fusedShape := mlirOpShapeD (contig.map main.lookupShape) [mm]
      let main := main.replaceWith gemmId (Op.mlirOp gemm.op) contig [mmIdx] fusedShape
      ⟨main, mpm.mods ++ [mm]⟩

/-! ## Claim C10: the per-operation-class override list -/

/-- C10: a single entry "fused" in the override list forces every
operation class whose queried name contains the substring "fused" (both
`fused_convolution` and `fused_dot`): `specific_op` returns `true` whenever
the queried option contains "fused" and the parsed list contains the bare
entry "fused" (including the force-exclude parse of a prefix-negated
entry), and when the parsed list is empty it returns the caller's fallback
value. -/
theorem claim_C10 :
    (∀ env enabled option fallback,
        strContains option "fused" = true →
        (getUsage env enabled).contains "fused" = true →
        specificOp env enabled option fallback = true) ∧
    (∀ env enabled option fallback,
        getUsage env enabled = [] →
        specificOp env enabled option fallback = fallback) ∧
    getUsage "fused" true = ["fused"] ∧
    getUsage "!fused" false = ["fused"] ∧
    specificOp "fused" true "fused_convolution" false = true ∧
    specificOp "fused" true "fused_dot" false = true ∧
    specificOp "!fused" false "fused_convolution" false = true ∧
    specificOp "!fused" false "fused_dot" false = true := by
  refine ⟨?_, ?_, by decide, by decide, by decide, by decide, by decide, by decide⟩
  · intro env enabled option fallback h1 h2
    have hne : (getUsage env enabled).isEmpty = false := by
      cases hu : getUsage env enabled with
      | nil => rw [hu] at h2; simp [List.contains] at h2
      | cons a l => simp [List.isEmpty]
    have hm : "fused" ∈ getUsage env enabled := by simpa using h2
    simp [specificOp, hne]
    exact Or.inl ⟨h1, hm⟩
  · intro env enabled option fallback h
    unfold specificOp
    simp [h]

/-- Witness for C10 at a concrete override list. -/
theorem claim_C10_witness :
    specificOp "fused,attention" true "fused_convolution" false = true :=
  claim_C10.1 "fused,attention" true "fused_convolution" false (by decide) (by decide)

/-! ## Claim C2: dot eligibility -/

/-- A GEMM whose first input has contraction dimension K = 1024. -/
def exDotM1024 : MModule :=
  ⟨[(0, ⟨Op.param 0, .t ⟨.float32, [2, 1024], true, false⟩, [], []⟩),
    (1, ⟨Op.param 1, .t ⟨.float32, [1024, 3], true, false⟩, [], []⟩),
    (2, ⟨Op.simple "dot", .t ⟨.float32, [2, 3], true, false⟩, [0, 1], []⟩)], 3⟩

def exDotIns1024 : Inst := ⟨Op.simple "dot", .t ⟨.float32, [2, 3], true, false⟩, [0, 1], []⟩

/-- Same GEMM with K = 1025. -/
def exDotM1025 : MModule :=
  ⟨[(0, ⟨Op.param 0, .t ⟨.float32, [2, 1025], true, false⟩, [], []⟩),
    (1, ⟨Op.param 1, .t ⟨.float32, [1025, 3], true, false⟩, [], []⟩),
    (2, ⟨Op.simple "dot", .t ⟨.float32, [2, 3], true, false⟩, [0, 1], []⟩)], 3⟩

def exDotIns1025 : Inst := ⟨Op.simple "dot", .t ⟨.float32, [2, 3], true, false⟩, [0, 1], []⟩

/-- C2: the dot eligibility predicate accepts a node iff its operation name
is `dot` or `quant_dot`, its result type is not the 8-bit float type, and —
only under fast mode — the contraction dimension K (the last dimension of
the first input's shape) is at most 1024; K = 1024 is eligible under fast
mode, K = 1025 is not, and mode `none` rejects every node. -/
theorem claim_C2 :
    (∀ m mode ins, isMlirDot m mode ins = true ↔
       (mode ≠ MlirMode.none ∧
        (ins.op.name = "dot" ∨ ins.op.name = "quant_dot") ∧
        ins.shape.ttype ≠ MType.fp8e4m3fnuz ∧
        (mode = MlirMode.fast →
          (m.lookupShape (ins.inputs.headD 0)).lens.getLastD 0 ≤ 1024))) ∧
    isMlirDot exDotM1024 MlirMode.fast exDotIns1024 = true ∧
    isMlirDot exDotM1025 MlirMode.fast exDotIns1025 = false ∧
    (∀ m ins, isMlirDot m MlirMode.none ins = false) := by
  refine ⟨?_, by decide, by decide, ?_⟩
  · intro m mode ins
    unfold isMlirDot
    split_ifs with h1 h2 h3 h4
    · simp [h1]
    · simp only [Bool.and_eq_true, decide_eq_true_eq] at h2
      simp only [false_iff]
      rintro ⟨-, hn, -⟩
      rcases hn with h | h
      · exact h2.1 h
      · exact h2.2 h
    · simp only [false_iff]
      rintro ⟨-, -, ht, -⟩
      exact ht h3
    · simp only [Bool.and_eq_true, decide_eq_true_eq, not_and_or, not_not] at h2
      simp only [true_iff]
      exact ⟨h1, h2, h3, fun hf => absurd hf h4⟩
    · simp only [Bool.and_eq_true, decide_eq_true_eq, not_and_or, not_not] at h2
      simp only [decide_eq_true_eq]
      constructor
      · intro hk
        exact ⟨h1, h2, h3, fun _ => hk⟩
      · rintro ⟨-, -, -, hk⟩
        exact hk (not_not.mp h4)
  · intro m ins
    unfold isMlirDot
    simp

/-! ## Claim C4: convolution eligibility -/

/-- C4: for convolution/quant_convolution nodes under a mode other than
`none`, the predicate rejects a node whose result rank is not 4 when the
convolution is grouped; otherwise accepts unconditionally when the input
element type is 8-bit integer or 8-bit float, or when the mode is `all`;
otherwise accepts iff the convolution is grouped, or the kernel shape is not
4-dimensional, or the kernel is non-square in its last two dimensions, or
the kernel's last spatial dimension is not a multiple of 3. -/
theorem claim_C4 (m : MModule) (mode : MlirMode) (ins : Inst)
    (hmode : mode ≠ MlirMode.none)
    (hname : ins.op.name = "convolution" ∨ ins.op.name = "quant_convolution") :
    isMlirConv m mode ins = true ↔
      (¬(ins.shape.lens.length ≠ 4 ∧ ins.op.group > 1) ∧
        ((m.lookupShape (ins.inputs.headD 0)).ttype = MType.fp8e4m3fnuz ∨
         (m.lookupShape (ins.inputs.headD 0)).ttype = MType.int8 ∨
         mode = MlirMode.all ∨
         ins.op.group > 1 ∨
         (m.lookupShape (ins.inputs.getD 1 0)).lens.length ≠ 4 ∨
         (m.lookupShape (ins.inputs.getD 1 0)).lens.getD 2 0 ≠
           (m.lookupShape (ins.inputs.getD 1 0)).lens.getD 3 0 ∨
         ((m.lookupShape (ins.inputs.getD 1 0)).lens.getD 3 0) % 3 ≠ 0)) := by
  unfold isMlirConv
  dsimp only
  have hn2 : ¬(ins.op.name ≠ "convolution" && ins.op.name ≠ "quant_convolution") = true := by
    rcases hname with h | h <;> simp [h]
  split_ifs with h1 h2 h3 h4 h5 h6 h7
  · exact absurd h1 hmode
  · simp only [Bool.and_eq_true, decide_eq_true_eq] at h2
    simp only [false_iff]
    rintro ⟨hc, -⟩
    exact hc h2
  all_goals
    simp only [Bool.and_eq_true, decide_eq_true_eq, not_and] at h2
  · simp only [Bool.or_eq_true, decide_eq_true_eq] at h3
    simp only [true_iff]
    refine ⟨fun hc => h2 hc.1 hc.2, ?_⟩
    rcases h3 with h | h
    · exact Or.inl h
    · exact Or.inr (Or.inl h)
  · simp only [true_iff]
    exact ⟨fun hc => h2 hc.1 hc.2, Or.inr (Or.inr (Or.inl h4))⟩
  · simp only [true_iff]
    exact ⟨fun hc => h2 hc.1 hc.2, Or.inr (Or.inr (Or.inr (Or.inl h5)))⟩
  · simp only [true_iff]
    exact ⟨fun hc => h2 hc.1 hc.2, Or.inr (Or.inr (Or.inr (Or.inr (Or.inl h6))))⟩
  · simp only [true_iff]
    exact ⟨fun hc => h2 hc.1 hc.2, Or.inr (Or.inr (Or.inr (Or.inr (Or.inr (Or.inl h7)))))⟩
  · simp only [Bool.or_eq_true, decide_eq_true_eq, not_or] at h3
    simp only [decide_eq_true_eq]
    constructor
    · intro hg
      exact ⟨fun hc => h2 hc.1 hc.2,
        Or.inr (Or.inr (Or.inr (Or.inr (Or.inr (Or.inr hg)))))⟩
    · rintro ⟨-, h | h | h | h | h | h | h⟩
      · exact absurd h h3.1
      · exact absurd h h3.2
      · exact absurd h h4
      · exact absurd h h5
      · exact absurd h h6
      · exact absurd h h7
      · exact h

/-- Witness for C4: a grouped 3×3 convolution with float32 operands under
fast mode is accepted (grouped convolutions have no competing native
algorithm). -/
theorem claim_C4_witness :
    isMlirConv
        ⟨[(0, ⟨Op.param 0, .t ⟨.float32, [1, 4, 8, 8], true, false⟩, [], []⟩),
          (1, ⟨Op.param 1, .t ⟨.float32, [4, 2, 3, 3], true, false⟩, [], []⟩),
          (2, ⟨Op.prim "convolution" [] 0 2, .t ⟨.float32, [1, 4, 6, 6], true, false⟩,
            [0, 1], []⟩)], 3⟩
        MlirMode.fast
        ⟨Op.prim "convolution" [] 0 2, .t ⟨.float32, [1, 4, 6, 6], true, false⟩, [0, 1], []⟩ =
      true := by
  rw [claim_C4 _ _ _ (by decide) (Or.inl (by decide))]
  refine ⟨by decide, ?_⟩
  right; right; right
  left
  decide

/-! ## Claim C3: pointwise legality -/

/-- The pointwise legality predicate as claim C3 words it: the conversion
clause reads "a type-conversion between floating types whose target is not
the 8-bit float type", where the floating types are float32, float16 and
the 8-bit float type. -/
def pointwiseClaimC3 (m : MModule) (ins : Inst) : Bool :=
  let name := ins.op.name
  let resultType := ins.shape.ttype
  allowedPointwiseTypes.contains resultType &&
    (anyTypeOps.contains name ||
      (decide (resultType ≠ MType.boolType) && noBoolOps.contains name) ||
      (floatTypes.contains resultType && fpOnlyOps.contains name) ||
      (decide (name = "convert") && floatTypes.contains resultType &&
        decide (resultType ≠ MType.fp8e4m3fnuz) &&
        ins.inputs.all (fun j => floatTypes.contains (m.lookupShape j).ttype)))

/-- A `convert` from the 8-bit float type to float32. -/
def exConvertM : MModule :=
  ⟨[(0, ⟨Op.param 0, .t ⟨.fp8e4m3fnuz, [4], true, false⟩, [], []⟩),
    (1, ⟨Op.simple "convert", .t ⟨.float32, [4], true, false⟩, [0], []⟩)], 2⟩

def exConvertIns : Inst := ⟨Op.simple "convert", .t ⟨.float32, [4], true, false⟩, [0], []⟩

/-- C3 counterexample: a `convert` from the 8-bit float type to float32 is a
type-conversion between floating types whose target is not the 8-bit float
type, so the claim accepts it; the code rejects it, because it requires
every conversion source to be float32 or float16 and the 8-bit float type is
not among them. -/
theorem claim_C3_counterexample :
    pointwiseClaimC3 exConvertM exConvertIns = true ∧
    isPointwiseOpSupportedByMlir exConvertM exConvertIns = false := by
  decide

/-- C3 amended: the pointwise legality predicate accepts an operation iff
its result type is in {float32, float16, int8, int32, bool, 8-bit-float};
and either it is a parameter/literal/return pass-through, or it is in the
no-bool-output list with a non-boolean result type, or it is in the
floating-point-only list with a floating result type, or it is a
type-conversion whose result type is float32 or float16 and whose source
types are all float32 or float16 (the 8-bit float type is accepted neither
as source nor as target of a conversion); every other operation is
rejected. -/
theorem claim_C3_amended (m : MModule) (ins : Inst) :
    isPointwiseOpSupportedByMlir m ins = true ↔
      (ins.shape.ttype ∈ allowedPointwiseTypes ∧
        (ins.op.name ∈ anyTypeOps ∨
         (ins.shape.ttype ≠ MType.boolType ∧ ins.op.name ∈ noBoolOps) ∨
         (ins.shape.ttype ∈ floatTypes ∧ ins.op.name ∈ fpOnlyOps) ∨
         (ins.op.name = "convert" ∧
           (ins.shape.ttype = MType.float32 ∨ ins.shape.ttype = MType.half) ∧
           ∀ j ∈ ins.inputs,
             (m.lookupShape j).ttype = MType.float32 ∨
               (m.lookupShape j).ttype = MType.half))) := by
  have cti : ∀ {l : List String} {a : String}, l.contains a = true ↔ a ∈ l :=
    fun {l a} => List.elem_iff
  have ctiT : ∀ {l : List MType} {a : MType}, l.contains a = true ↔ a ∈ l :=
    fun {l a} => List.elem_iff
  unfold isPointwiseOpSupportedByMlir
  dsimp only
  split_ifs with h1 h2 h3 h4 h5 h6
  · -- result type outside the whitelist
    simp only [Bool.not_eq_true'] at h1
    simp only [false_iff]
    rintro ⟨hmem, -⟩
    have := ctiT.mpr hmem
    rw [h1] at this
    cases this
  all_goals
    simp only [Bool.not_eq_true', Bool.not_eq_false] at h1
  all_goals
    have h1m : ins.shape.ttype ∈ allowedPointwiseTypes := ctiT.mp h1
  · -- pass-through ops
    simp only [true_iff]
    exact ⟨h1m, Or.inl (cti.mp h2)⟩
  all_goals
    have h2m : ins.op.name ∉ anyTypeOps := fun hm => h2 (cti.mpr hm)
  · -- no-bool list, non-boolean result
    simp only [Bool.and_eq_true, decide_eq_true_eq] at h3
    simp only [true_iff]
    exact ⟨h1m, Or.inr (Or.inl ⟨h3.1, cti.mp h3.2⟩)⟩
  all_goals
    simp only [Bool.and_eq_true, decide_eq_true_eq, not_and] at h3
  · -- fp-only list, floating result
    simp only [Bool.and_eq_true] at h4
    simp only [true_iff]
    exact ⟨h1m, Or.inr (Or.inr (Or.inl ⟨ctiT.mp h4.1, cti.mp h4.2⟩))⟩
  all_goals
    simp only [Bool.and_eq_true, decide_eq_true_eq, not_and] at h4
  all_goals
    simp only [Bool.and_eq_true, decide_eq_true_eq] at h5
  · -- conversion to the 8-bit float type: rejected
    simp only [false_iff]
    rintro ⟨-, hcase⟩
    rcases hcase with hm | ⟨hnb, hm⟩ | ⟨hf, hm⟩ | ⟨-, ht, -⟩
    · exact h2m hm
    · exact h3 hnb (cti.mpr hm)
    · exact h4 (ctiT.mpr hf) (cti.mpr hm)
    · rcases ht with ht | ht <;> rw [h6] at ht <;> exact absurd ht (by decide)
  · -- conversion between non-8-bit floating types
    rw [List.all_eq_true]
    have hrt : ins.shape.ttype = MType.float32 ∨ ins.shape.ttype = MType.half := by
      have hf := ctiT.mp h5.1
      have hf2 : ins.shape.ttype = MType.float32 ∨ ins.shape.ttype = MType.half ∨
          ins.shape.ttype = MType.fp8e4m3fnuz := by simpa [floatTypes] using hf
      rcases hf2 with h | h | h
      · exact Or.inl h
      · exact Or.inr h
      · exact absurd h h6
    constructor
    · intro hall
      refine ⟨h1m, Or.inr (Or.inr (Or.inr ⟨h5.2, hrt, ?_⟩))⟩
      intro j hj
      have hj2 := hall j hj
      have hm := ctiT.mp hj2
      simpa using hm
    · rintro ⟨-, hcase⟩
      rcases hcase with hm | ⟨hnb, hm⟩ | ⟨hf, hm⟩ | ⟨-, -, hall⟩
      · exact absurd hm h2m
      · exact absurd (cti.mpr hm) (h3 hnb)
      · exact absurd (cti.mpr hm) (h4 (ctiT.mpr hf))
      · intro j hj
        rcases hall j hj with h | h <;> simp [h]
  · -- everything else: rejected
    simp only [false_iff]
    rintro ⟨-, hcase⟩
    rcases hcase with hm | ⟨hnb, hm⟩ | ⟨hf, hm⟩ | ⟨hcv, ht, -⟩
    · exact h2m hm
    · exact h3 hnb (cti.mpr hm)
    · exact h4 (ctiT.mpr hf) (cti.mpr hm)
    · refine h5 ⟨?_, hcv⟩
      rcases ht with ht | ht <;> rw [ht] <;> decide

/-! ## Claim C1: input-chain absorption and slice -/

lemma MModule.lookup_mem {m : MModule} {i : Nat} {ins : Inst}
    (h : m.lookup i = some ins) : (i, ins) ∈ m.insts := by
  unfold MModule.lookup at h
  cases hf : m.insts.find? (fun p => p.1 == i) with
  | none => rw [hf] at h; cases h
  | some p =>
    rw [hf] at h
    injection h with h2
    have hp := List.find?_some hf
    have hm := List.mem_of_find?_eq_some hf
    have hpi : p.1 = i := by simpa using hp
    have hpe : p = (i, ins) := by
      cases p
      simp_all
    rwa [hpe] at hm

/-- Every operation recorded by the input-chain walk has a reshape-class
name (slice included; squeeze/flatten/unsqueeze are recorded as reshape). -/
lemma getStreamFuel_ops (m : MModule) :
    ∀ fuel i, ∀ op ∈ (getStreamFuel m fuel i).2, op.name ∈ reshaperNames := by
  intro fuel
  induction fuel with
  | zero => intro i op hop; simp [getStreamFuel] at hop
  | succ f ih =>
    intro i op hop
    unfold getStreamFuel at hop
    cases hl : m.lookup i with
    | none => rw [hl] at hop; simp at hop
    | some ins =>
      rw [hl] at hop
      dsimp only at hop
      by_cases hr : reshaperNames.contains ins.op.name
      · rw [if_pos hr] at hop
        rcases List.mem_cons.mp hop with rfl | hmem
        · by_cases hsq : (["squeeze", "flatten", "unsqueeze"] : List String).contains ins.op.name
          · rw [if_pos hsq]
            simp [Op.reshape, Op.name, reshaperNames]
          · rw [if_neg hsq]
            exact List.elem_iff.mp hr
        · exact ih _ op hmem
      · rw [if_neg hr] at hop
        simp at hop

/-- Under well-formedness the walk is maximal: the returned upper input is
not a reshape-class instruction. -/
lemma getStreamFuel_upper (m : MModule) (hwf : m.Wf) :
    ∀ fuel i, i < fuel → ∀ ins, m.lookup (getStreamFuel m fuel i).1 = some ins →
      ins.op.name ∉ reshaperNames := by
  intro fuel
  induction fuel with
  | zero => intro i h; exact absurd h (Nat.not_lt_zero i)
  | succ f ih =>
    intro i hi ins hins
    unfold getStreamFuel at hins
    cases hl : m.lookup i with
    | none =>
      rw [hl] at hins
      dsimp only at hins
      rw [hl] at hins
      cases hins
    | some insI =>
      rw [hl] at hins
      dsimp only at hins
      by_cases hr : reshaperNames.contains insI.op.name
      · rw [if_pos hr] at hins
        dsimp only at hins
        have hmem : (i, insI) ∈ m.insts := MModule.lookup_mem hl
        have hne : insI.inputs ≠ [] :=
          hwf.2.2 (i, insI) hmem (List.elem_iff.mp hr)
        have hj : insI.inputs.headD 0 ∈ insI.inputs := by
          cases hc : insI.inputs with
          | nil => exact absurd hc hne
          | cons a l => simp
        have hlt : insI.inputs.headD 0 < i := hwf.1 (i, insI) hmem _ hj
        exact ih (insI.inputs.headD 0) (by omega) ins hins
      · rw [if_neg hr] at hins
        dsimp only at hins
        rw [hl] at hins
        injection hins with h2
        subst h2
        exact fun hmm => hr (List.elem_iff.mpr hmm)

/-- A parameter feeding a slice. -/
def exSliceM : MModule :=
  ⟨[(0, ⟨Op.param 0, .t ⟨.float32, [4, 4], true, false⟩, [], []⟩),
    (1, ⟨Op.prim "slice" [] 0 1, .t ⟨.float32, [2, 4], true, false⟩, [0], []⟩)], 2⟩

/-- C1 counterexample: the input-chain walk started at a slice does not stop
before it — it walks through the slice and records it in the re-applied
operation stream, so slice is absorbed into the fused region's chain. -/
theorem claim_C1_counterexample :
    (getFusableInputOpStream exSliceM 1).2.map Op.name = ["slice"] ∧
    (getFusableInputOpStream exSliceM 1).1 = 0 := by
  decide

/-- C1 amended: the input-chain absorption walks backward through any
contiguous chain of reshape-class operations including slice (a chain that
reaches a slice absorbs it and continues); every recorded operation is
reshape-class, the walk stops exactly at the first non-reshape-class
instruction, and a reshape-class starting instruction (slice included) is
always absorbed. -/
theorem claim_C1_amended (m : MModule) (hwf : m.Wf) (i : Nat) :
    (∀ op ∈ (getFusableInputOpStream m i).2, op.name ∈ reshaperNames) ∧
    (∀ ins, m.lookup (getFusableInputOpStream m i).1 = some ins →
      ins.op.name ∉ reshaperNames) ∧
    (∀ ins, m.lookup i = some ins → ins.op.name ∈ reshaperNames →
      (getFusableInputOpStream m i).2 ≠ []) := by
  refine ⟨fun op hop => getStreamFuel_ops m (i + 1) i op hop,
    fun ins hins => getStreamFuel_upper m hwf (i + 1) i (Nat.lt_succ_self i) ins hins,
    ?_⟩
  intro ins hins hres
  unfold getFusableInputOpStream getStreamFuel
  rw [hins]
  dsimp only
  rw [if_pos (List.elem_iff.mpr hres)]
  simp

/-- Witness for C1 amended at the slice example. -/
theorem claim_C1_amended_witness :
    (∀ op ∈ (getFusableInputOpStream exSliceM 1).2, op.name ∈ reshaperNames) ∧
    (∀ ins, exSliceM.lookup (getFusableInputOpStream exSliceM 1).1 = some ins →
      ins.op.name ∉ reshaperNames) ∧
    (∀ ins, exSliceM.lookup 1 = some ins → ins.op.name ∈ reshaperNames →
      (getFusableInputOpStream exSliceM 1).2 ≠ []) :=
  claim_C1_amended exSliceM (by decide) 1

/-! ## Claim C6: the macro-node's shape computation contract -/

/-- C6: `mlir_op::compute_shape` raises a fatal error whenever it is given a
number of sub-regions different from one or fewer than two tensor inputs;
and for inputs that are each packed or broadcasted, with exactly one
sub-region and at least two inputs, it returns a shape — the sub-region's
single output shape, or the tuple of its output shapes. -/
theorem claim_C6 :
    (∀ (inputs : List MShape) (mods : List MModule),
        (mods.length ≠ 1 ∨ inputs.length < 2) →
        ∃ e, mlirOpComputeShape inputs mods = .error e) ∧
    (∀ (inputs : List MShape) (mods : List MModule),
        inputs.all MShape.packedOrBroadcasted = true →
        mods.length = 1 → 2 ≤ inputs.length →
        mlirOpComputeShape inputs mods =
          .ok (if (mods.headD MModule.empty).outputShapes.length = 1 then
                 MShape.t ((mods.headD MModule.empty).outputShapes.headD
                   ⟨.float32, [], true, false⟩)
               else MShape.tup (mods.headD MModule.empty).outputShapes)) := by
  constructor
  · intro inputs mods hbad
    unfold mlirOpComputeShape
    split_ifs with h1 h2 h3
    · exact ⟨_, rfl⟩
    · exact ⟨_, rfl⟩
    · exact ⟨_, rfl⟩
    · rcases hbad with h | h
      · exact absurd h h2
      · exact absurd h h3
  · intro inputs mods hpk h1 h2
    unfold mlirOpComputeShape
    rw [if_neg (by simp [hpk]), if_neg (by omega), if_neg (by omega)]
    dsimp only
    split_ifs with hlen <;> rfl

/-- Witness for C6: the error side at zero sub-modules, and the success side
on two packed inputs with one sub-module returning a single value. -/
theorem claim_C6_witness :
    (∃ e, mlirOpComputeShape [] ([] : List MModule) = .error e) ∧
    mlirOpComputeShape
        [.t ⟨.float32, [2, 2], true, false⟩, .t ⟨.float32, [2, 2], true, false⟩]
        [⟨[(0, ⟨Op.param 0, .t ⟨.float32, [2, 2], true, false⟩, [], []⟩),
           (1, ⟨Op.simple "dot", .t ⟨.float32, [2, 2], true, false⟩, [0, 0], []⟩),
           (2, ⟨Op.ret, .t ⟨.float32, [], true, false⟩, [1], []⟩)], 3⟩] =
      .ok (.t ⟨.float32, [2, 2], true, false⟩) := by
  constructor
  · exact claim_C6.1 [] [] (Or.inl (by decide))
  · rw [claim_C6.2 _ _ (by decide) (by decide) (by decide)]
    rfl

/-! ## Claim C7: the self-reference guard discards the match -/

/-- C7: if any input of the matched pointwise instruction other than the one
on the matched reshape chain can reach the matched GEMM/convolution, the
apply step discards the match and returns with the graph completely
unchanged — the surrounding module is untouched and no sub-module is
created. -/
theorem claim_C7 (mpm : MPM) (pwIns gemmId xId : Nat) (pw gemm : Inst)
    (hpw : mpm.main.lookup pwIns = some pw)
    (hg : mpm.main.lookup gemmId = some gemm)
    (hdep : ∃ i ∈ pw.inputs, i ≠ xId ∧ reaches mpm.main gemmId i = true) :
    applyFusedOps mpm pwIns gemmId xId = mpm := by
  unfold applyFusedOps
  rw [hpw, hg]
  dsimp only
  have hc : (pw.inputs.any (fun i => decide (i ≠ xId) && reaches mpm.main gemmId i)) = true := by
    rcases hdep with ⟨i, hi, hne, hr⟩
    refine List.any_eq_true.mpr ⟨i, hi, ?_⟩
    simp [hne, hr]
  rw [if_pos hc]

/-- A pointwise instruction with two inputs, one on the GEMM's reshape chain
and one (a relu of the GEMM) that also reaches the GEMM. -/
def exGuardMPM : MPM :=
  ⟨⟨[(0, ⟨Op.param 0, .t ⟨.float32, [2, 2], true, false⟩, [], []⟩),
     (1, ⟨Op.simple "dot", .t ⟨.float32, [2, 2], true, false⟩, [0, 0], []⟩),
     (2, ⟨Op.simple "relu", .t ⟨.float32, [2, 2], true, false⟩, [1], []⟩),
     (3, ⟨Op.simple "pointwise", .t ⟨.float32, [2, 2], true, false⟩, [1, 2], [0]⟩)], 4⟩,
   [⟨[(0, ⟨Op.param 0, .t ⟨.float32, [2, 2], true, false⟩, [], []⟩),
      (1, ⟨Op.param 1, .t ⟨.float32, [2, 2], true, false⟩, [], []⟩),
      (2, ⟨Op.simple "add", .t ⟨.float32, [2, 2], true, false⟩, [0, 1], []⟩),
      (3, ⟨Op.ret, .t ⟨.float32, [], true, false⟩, [2], []⟩)], 4⟩]⟩

/-- Witness for C7 at the concrete guarded match. -/
theorem claim_C7_witness :
    applyFusedOps exGuardMPM 3 1 1 = exGuardMPM :=
  claim_C7 exGuardMPM 3 1 1
    ⟨Op.simple "pointwise", .t ⟨.float32, [2, 2], true, false⟩, [1, 2], [0]⟩
    ⟨Op.simple "dot", .t ⟨.float32, [2, 2], true, false⟩, [0, 0], []⟩
    (by decide) (by decide)
    ⟨2, by decide, by decide, by decide⟩

/-! ## Structural lemmas about the module operations -/

/-- All instruction identifiers are below `nextId` (an invariant of real
modules, preserved by every operation of the model). -/
def MModule.KeysLt (m : MModule) : Prop := ∀ p ∈ m.insts, p.1 < m.nextId

instance (m : MModule) : Decidable m.KeysLt := by
  unfold MModule.KeysLt
  infer_instance

lemma addInst_insts (m : MModule) (ins : Inst) :
    (m.addInst ins).1.insts = m.insts ++ [(m.nextId, ins)] := rfl

lemma addInst_keysLt {m : MModule} (ins : Inst) (h : m.KeysLt) :
    (m.addInst ins).1.KeysLt := by
  intro p hp
  rcases List.mem_append.mp hp with hm | hm
  · exact Nat.lt_succ_of_lt (h p hm)
  · simp only [List.mem_singleton] at hm
    subst hm
    exact Nat.lt_succ_self _
lemma addInst_nextId (m : MModule) (ins : Inst) :
    (m.addInst ins).1.nextId = m.nextId + 1 := rfl

lemma replayOps_insts (ops : List Op) :
    ∀ (mm : MModule) (prev : Nat),
      ∃ added, (replayOps ops mm prev).1.insts = mm.insts ++ added ∧
        ∀ p ∈ added, p.2.op ∈ ops := by
  induction ops with
  | nil => intro mm prev; exact ⟨[], by simp [replayOps], by simp⟩
  | cons op rest ih =>
    intro mm prev
    have hstep : replayOps (op :: rest) mm prev =
        replayOps rest
          (mm.addInst ⟨op, inferShape op [mm.lookupShape prev], [prev], []⟩).1
          (mm.addInst ⟨op, inferShape op [mm.lookupShape prev], [prev], []⟩).2 := rfl
    obtain ⟨added, h1, h2⟩ :=
      ih (mm.addInst ⟨op, inferShape op [mm.lookupShape prev], [prev], []⟩).1
        (mm.addInst ⟨op, inferShape op [mm.lookupShape prev], [prev], []⟩).2
    refine ⟨(mm.nextId, ⟨op, inferShape op [mm.lookupShape prev], [prev], []⟩) :: added, ?_, ?_⟩
    · rw [hstep, h1, addInst_insts]
      simp
    · intro p hp
      rcases List.mem_cons.mp hp with rfl | hm
      · exact List.mem_cons_self _ _
      · exact List.mem_cons_of_mem _ (h2 p hm)

lemma fuseInputFold_insts (main : MModule) :
    ∀ (inputs : List Nat) (mm : MModule) (imm tops : List Nat) (cnt : Nat),
      ∃ added,
        (inputs.foldl (fuseInputStep main) (mm, imm, tops, cnt)).1.insts =
          mm.insts ++ added ∧
        ∀ p ∈ added, p.2.op.name = "@param" ∨ p.2.op.name ∈ reshaperNames := by
  intro inputs
  induction inputs with
  | nil => intro mm imm tops cnt; exact ⟨[], by simp, by simp⟩
  | cons input rest ih =>
    intro mm imm tops cnt
    rw [List.foldl_cons]
    have hstep : fuseInputStep main (mm, imm, tops, cnt) input =
        ((replayOps (getFusableInputOpStream main input).2.reverse
            (mm.addInst ⟨Op.param cnt,
              (main.lookupShape (getFusableInputOpStream main input).1).asStandard, [], []⟩).1
            (mm.addInst ⟨Op.param cnt,
              (main.lookupShape (getFusableInputOpStream main input).1).asStandard, [], []⟩).2).1,
          imm ++ [(replayOps (getFusableInputOpStream main input).2.reverse
            (mm.addInst ⟨Op.param cnt,
              (main.lookupShape (getFusableInputOpStream main input).1).asStandard, [], []⟩).1
            (mm.addInst ⟨Op.param cnt,
              (main.lookupShape (getFusableInputOpStream main input).1).asStandard, [], []⟩).2).2],
          tops ++ [(getFusableInputOpStream main input).1], cnt + 1) := rfl
    rw [hstep]
    obtain ⟨addedR, hR1, hR2⟩ :=
      replayOps_insts (getFusableInputOpStream main input).2.reverse
        (mm.addInst ⟨Op.param cnt,
          (main.lookupShape (getFusableInputOpStream main input).1).asStandard, [], []⟩).1
        (mm.addInst ⟨Op.param cnt,
          (main.lookupShape (getFusableInputOpStream main input).1).asStandard, [], []⟩).2
    obtain ⟨addedT, hT1, hT2⟩ := ih _ _ _ _
    refine ⟨(mm.nextId, ⟨Op.param cnt,
        (main.lookupShape (getFusableInputOpStream main input).1).asStandard, [], []⟩)
        :: addedR ++ addedT, ?_, ?_⟩
    · rw [hT1, hR1, addInst_insts]
      simp
    · intro p hp
      rcases List.mem_cons.mp hp with rfl | hm
      · left; rfl
      rcases List.mem_append.mp hm with hm2 | hm2
      · right
        have hop := hR2 p hm2
        rw [List.mem_reverse] at hop
        exact getStreamFuel_ops main _ _ _ hop
      · exact hT2 p hm2

/-- Structure of the region built by `fuse_input_ops_and_gemm_based_op`:
the pre-existing contents, then parameters and re-applied reshape-class
operations, then the anchor operation last, whose identifier is returned. -/
lemma fuseInputOpsAndGemm_struct (mm main : MModule) (gemmInputs : List Nat) (gemmOp : Op)
    (mm' : MModule) (aId : Nat) (tops : List Nat)
    (h : fuseInputOpsAndGemm mm main gemmInputs gemmOp = (mm', aId, tops)) :
    ∃ added anchorInst,
      mm'.insts = mm.insts ++ added ++ [(aId, anchorInst)] ∧
      (anchorInst : Inst).op = gemmOp ∧ anchorInst.modArgs = [] ∧
      (∀ p ∈ added, p.2.op.name = "@param" ∨ p.2.op.name ∈ reshaperNames) := by
  unfold fuseInputOpsAndGemm at h
  rcases hF : gemmInputs.foldl (fuseInputStep main) (mm, [], [], 0) with ⟨mmf, immf, topsf, cntf⟩
  rw [hF] at h
  dsimp only at h
  obtain ⟨added, h1, h2⟩ := fuseInputFold_insts main gemmInputs mm [] [] 0
  rw [hF] at h1
  dsimp only at h1
  injection h with ha hb
  injection hb with hb1 hb2
  subst ha
  subst hb1
  subst hb2
  refine ⟨added, ⟨gemmOp, inferShape gemmOp (immf.map mmf.lookupShape), immf, []⟩, ?_, rfl, rfl, h2⟩
  rw [addInst_insts, h1]
  simp [MModule.addInst]

lemma find?_key_none (l : List (Nat × Inst)) (j : Nat) (h : ∀ p ∈ l, p.1 ≠ j) :
    l.find? (fun p => p.1 == j) = none := by
  induction l with
  | nil => rfl
  | cons a t ih =>
    rw [List.find?_cons_of_neg, ih fun p hp => h p (List.mem_cons_of_mem a hp)]
    simp only [Bool.not_eq_true]
    simpa using h a (List.mem_cons_self a t)

lemma insertAfter_lookup_ne (m : MModule) (pos : Nat) (ins : Inst) (j : Nat)
    (hj : j ≠ m.nextId) :
    (m.insertAfter pos ins).1.lookup j = m.lookup j := by
  unfold MModule.insertAfter MModule.lookup
  dsimp only
  conv_rhs =>
    rw [← List.take_append_drop (m.insts.findIdx (fun p => p.1 == pos) + 1) m.insts]
  rw [List.find?_append, List.find?_append, List.find?_append]
  have he : List.find? (fun p => p.1 == j) [(m.nextId, ins)] = none := by
    have hb : (m.nextId == j) = false := by simpa using Ne.symm hj
    simp [List.find?, hb]
  rw [he]
  cases List.find? (fun p => p.1 == j)
      (m.insts.take (m.insts.findIdx (fun p => p.1 == pos) + 1)) <;> rfl

lemma insertBefore_lookup_ne (m : MModule) (pos : Nat) (ins : Inst) (j : Nat)
    (hj : j ≠ m.nextId) :
    (m.insertBefore pos ins).1.lookup j = m.lookup j := by
  unfold MModule.insertBefore MModule.lookup
  dsimp only
  conv_rhs =>
    rw [← List.take_append_drop (m.insts.findIdx (fun p => p.1 == pos)) m.insts]
  rw [List.find?_append, List.find?_append, List.find?_append]
  have he : List.find? (fun p => p.1 == j) [(m.nextId, ins)] = none := by
    have hb : (m.nextId == j) = false := by simpa using Ne.symm hj
    simp [List.find?, hb]
  rw [he]
  cases List.find? (fun p => p.1 == j)
      (m.insts.take (m.insts.findIdx (fun p => p.1 == pos))) <;> rfl

lemma insertBefore_lookup_new (m : MModule) (pos : Nat) (ins : Inst) (h : m.KeysLt) :
    (m.insertBefore pos ins).1.lookup m.nextId = some ins := by
  unfold MModule.insertBefore MModule.lookup
  dsimp only
  rw [List.find?_append, List.find?_append]
  have ht : List.find? (fun p => p.1 == m.nextId)
      (m.insts.take (m.insts.findIdx (fun p => p.1 == pos))) = none :=
    find?_key_none _ _ fun p hp => Nat.ne_of_lt (h p (List.take_subset _ _ hp))
  rw [ht]
  have he : List.find? (fun p => p.1 == m.nextId) [(m.nextId, ins)] = some (m.nextId, ins) := by
    simp [List.find?]
  rw [he]
  rfl

lemma insertAfter_keysLt {m : MModule} (pos : Nat) (ins : Inst) (h : m.KeysLt) :
    (m.insertAfter pos ins).1.KeysLt := by
  intro p hp
  unfold MModule.insertAfter at hp
  dsimp only at hp
  rcases List.mem_append.mp hp with hm | hm
  · rcases List.mem_append.mp hm with hm2 | hm2
    · exact Nat.lt_succ_of_lt (h p (List.take_subset _ _ hm2))
    · simp only [List.mem_singleton] at hm2
      subst hm2
      exact Nat.lt_succ_self _
  · exact Nat.lt_succ_of_lt (h p (List.drop_subset _ _ hm))

lemma insertBefore_keysLt {m : MModule} (pos : Nat) (ins : Inst) (h : m.KeysLt) :
    (m.insertBefore pos ins).1.KeysLt := by
  intro p hp
  unfold MModule.insertBefore at hp
  dsimp only at hp
  rcases List.mem_append.mp hp with hm | hm
  · rcases List.mem_append.mp hm with hm2 | hm2
    · exact Nat.lt_succ_of_lt (h p (List.take_subset _ _ hm2))
    · simp only [List.mem_singleton] at hm2
      subst hm2
      exact Nat.lt_succ_self _
  · exact Nat.lt_succ_of_lt (h p (List.drop_subset _ _ hm))

lemma replaceWith_lookup (m : MModule) (pos : Nat) (op : Op) (inputs modArgs : List Nat)
    (sh : MShape) (j : Nat) :
    (m.replaceWith pos op inputs modArgs sh).lookup j =
      if j = pos then (m.lookup j).map (fun _ => (⟨op, sh, inputs, modArgs⟩ : Inst))
      else m.lookup j := by
  unfold MModule.replaceWith MModule.lookup
  dsimp only
  rw [List.find?_map]
  have hpred : ((fun (p : Nat × Inst) => p.1 == j) ∘
      (fun p => if p.1 == pos then (p.1, (⟨op, sh, inputs, modArgs⟩ : Inst)) else p)) =
      (fun (p : Nat × Inst) => p.1 == j) := by
    funext p
    by_cases h : p.1 = pos <;> simp [h]
  rw [hpred]
  cases hf : m.insts.find? (fun p => p.1 == j) with
  | none => simp
  | some e =>
    have he : e.1 = j := by simpa using List.find?_some hf
    by_cases hj : j = pos
    · subst hj
      simp [he]
    · simp [he, hj]

lemma replaceUses_lookup (m : MModule) (old rep j : Nat) :
    (m.replaceUses old rep).lookup j =
      (m.lookup j).map (fun i =>
        { i with inputs := i.inputs.map (fun t => if t == old then rep else t) }) := by
  unfold MModule.replaceUses MModule.lookup
  dsimp only
  rw [List.find?_map]
  have hpred : ((fun (p : Nat × Inst) => p.1 == j) ∘
      (fun (p : Nat × Inst) => (p.1,
        { p.2 with inputs := p.2.inputs.map (fun t => if t == old then rep else t) }))) =
      (fun (p : Nat × Inst) => p.1 == j) := by
    funext p
    rfl
  rw [hpred]
  cases hf : m.insts.find? (fun p => p.1 == j) <;> simp

lemma find?_cons_neg {p : Nat × Inst → Bool} {a : Nat × Inst} (t : List (Nat × Inst))
    (h : p a = false) : (a :: t).find? p = t.find? p := by
  simp [List.find?, h]

lemma find?_cons_pos {p : Nat × Inst → Bool} {a : Nat × Inst} (t : List (Nat × Inst))
    (h : p a = true) : (a :: t).find? p = some a := by
  simp [List.find?, h]

lemma find?_filter_ne (l : List (Nat × Inst)) (src j : Nat) (hj : j ≠ src) :
    (l.filter (fun p => p.1 ≠ src)).find? (fun p => p.1 == j) =
      l.find? (fun p => p.1 == j) := by
  induction l with
  | nil => rfl
  | cons a t ih =>
    by_cases ha : a.1 = src
    · have hfa : (decide (a.1 ≠ src)) = false := by simp [ha]
      have hja : (a.1 == j) = false := by
        simp [ha]
        exact fun hc => hj hc.symm
      rw [List.filter_cons, if_neg (by simp [hfa]), find?_cons_neg t hja]
      exact ih
    · have hfa : (decide (a.1 ≠ src)) = true := by simp [ha]
      rw [List.filter_cons, if_pos (by simp [hfa])]
      by_cases haj : a.1 = j
      · rw [find?_cons_pos _ (by simp [haj]), find?_cons_pos _ (by simp [haj])]
      · rw [find?_cons_neg _ (by simp [haj]), find?_cons_neg _ (by simp [haj])]
        exact ih

lemma moveInstruction_lookup (m : MModule) (src dst j : Nat) :
    (m.moveInstruction src dst).lookup j = m.lookup j := by
  unfold MModule.moveInstruction
  cases hf : m.insts.find? (fun p => p.1 == src) with
  | none => rfl
  | some entry =>
    have hes : entry.1 = src := by simpa using List.find?_some hf
    unfold MModule.lookup
    dsimp only
    by_cases hj : j = src
    · subst hj
      rw [List.find?_append, List.find?_append]
      have ht : ((m.insts.filter (fun p => p.1 ≠ j)).take
          ((m.insts.filter (fun p => p.1 ≠ j)).findIdx (fun p => p.1 == dst))).find?
            (fun p => p.1 == j) = none := by
        refine find?_key_none _ _ fun p hp => ?_
        have hpm := List.take_subset _ _ hp
        have := List.of_mem_filter hpm
        simpa using this
      rw [ht]
      have he : List.find? (fun p => p.1 == j) [entry] = some entry := by
        simp [List.find?, hes]
      rw [he, hf]
      rfl
    · rw [List.find?_append, List.find?_append]
      have he : List.find? (fun p => p.1 == j) [entry] = none := by
        have hb : (entry.1 == j) = false := by
          simp [hes]
          exact fun hc => hj hc.symm
        simp [List.find?, hb]
      rw [he]
      have hor : ∀ (o o2 : Option (Nat × Inst)), (o.or none).or o2 = o.or o2 := by
        intro o o2
        cases o <;> rfl
      rw [hor]
      have hsplit : Option.or
          (((m.insts.filter (fun p => p.1 ≠ src)).take
            ((m.insts.filter (fun p => p.1 ≠ src)).findIdx (fun p => p.1 == dst))).find?
              (fun p => p.1 == j))
          (((m.insts.filter (fun p => p.1 ≠ src)).drop
            ((m.insts.filter (fun p => p.1 ≠ src)).findIdx (fun p => p.1 == dst))).find?
              (fun p => p.1 == j)) =
          ((m.insts.filter (fun p => p.1 ≠ src)).find? (fun p => p.1 == j)) := by
        conv_rhs =>
          rw [← List.take_append_drop
            ((m.insts.filter (fun p => p.1 ≠ src)).findIdx (fun p => p.1 == dst))
            (m.insts.filter (fun p => p.1 ≠ src))]
        rw [List.find?_append]
      rw [hsplit, find?_filter_ne _ _ _ hj]

lemma insertAfter_nextId (m : MModule) (pos : Nat) (ins : Inst) :
    (m.insertAfter pos ins).1.nextId = m.nextId + 1 := rfl

lemma insertBefore_nextId (m : MModule) (pos : Nat) (ins : Inst) :
    (m.insertBefore pos ins).1.nextId = m.nextId + 1 := rfl

/-- `mlir_contiguous` only inserts fresh instructions: identifiers stay
bounded, `nextId` grows, and the lookup of any pre-existing identifier is
unchanged. -/
lemma contigFold_pres (inputs : List Nat) :
    ∀ (m : MModule) (res : List Nat), m.KeysLt →
      (inputs.foldl contigStep (m, res)).1.KeysLt ∧
      m.nextId ≤ (inputs.foldl contigStep (m, res)).1.nextId ∧
      ∀ j, j < m.nextId →
        (inputs.foldl contigStep (m, res)).1.lookup j = m.lookup j := by
  induction inputs with
  | nil => intro m res h; exact ⟨h, Nat.le_refl _, fun j hj => rfl⟩
  | cons input rest ih =>
    intro m res h
    rw [List.foldl_cons]
    by_cases hp : (m.lookupShape input).packedOrBroadcasted
    · have hstep : contigStep (m, res) input = (m, res ++ [input]) := by
        unfold contigStep
        dsimp only
        rw [if_pos hp]
      rw [hstep]
      exact ih m (res ++ [input]) h
    · have hstep : contigStep (m, res) input =
          ((m.insertAfter input
            ⟨Op.contiguous, inferShape Op.contiguous [m.lookupShape input], [input], []⟩).1,
           res ++ [(m.insertAfter input
            ⟨Op.contiguous, inferShape Op.contiguous [m.lookupShape input], [input], []⟩).2]) := by
        unfold contigStep
        dsimp only
        rw [if_neg hp]
      rw [hstep]
      obtain ⟨ih1, ih2, ih3⟩ := ih _ _ (insertAfter_keysLt _ _ h)
      refine ⟨ih1, ?_, ?_⟩
      · rw [insertAfter_nextId] at ih2
        omega
      · intro j hj
        rw [ih3 j (by rw [insertAfter_nextId]; omega),
          insertAfter_lookup_ne m input _ j (Nat.ne_of_lt hj)]

/-- The move loop of the multi-consumer case never changes any lookup. -/
lemma movesFold_lookup (l : List Nat) (dst : Nat) :
    ∀ (m : MModule) (j : Nat),
      (l.foldl (fun mo r => mo.moveInstruction r dst) m).lookup j = m.lookup j := by
  induction l with
  | nil => intro m j; rfl
  | cons r rest ih =>
    intro m j
    rw [List.foldl_cons, ih, moveInstruction_lookup]

/-! ## Claim C8: standalone GEMM/convolution fusion -/

/-- C8: the standalone fusion rule applies only when every input of the
matched operation has element type in {float32, float16, int8, 8-bit-float}
— when some input type is outside this set the apply step returns with the
graph unchanged — and when it applies, the new region consists exactly of
the absorbed input chains (parameters and re-applied reshape-class
operations) followed by the anchor operation, which is the region's sole
return value; the matched instruction becomes the macro-node carrying that
region. -/
theorem claim_C8 (mpm : MPM) (gemmId : Nat) (gemm : Inst)
    (hwf : mpm.main.KeysLt)
    (hg : mpm.main.lookup gemmId = some gemm) :
    (gemm.inputs.any (fun i =>
        !([MType.float32, MType.half, MType.int8, MType.fp8e4m3fnuz].contains
          (mpm.main.lookupShape i).ttype)) = true →
      applyStandaloneOp mpm gemmId = mpm) ∧
    (gemm.inputs.any (fun i =>
        !([MType.float32, MType.half, MType.int8, MType.fp8e4m3fnuz].contains
          (mpm.main.lookupShape i).ttype)) = false →
      ∃ mm added aId anchorInst retId retInst,
        (applyStandaloneOp mpm gemmId).mods = mpm.mods ++ [mm] ∧
        mm.insts = added ++ [(aId, anchorInst), (retId, retInst)] ∧
        (anchorInst : Inst).op = gemm.op ∧
        (retInst : Inst).op = Op.ret ∧ retInst.inputs = [aId] ∧
        (∀ p ∈ added, p.2.op.name = "@param" ∨ p.2.op.name ∈ reshaperNames) ∧
        ∃ gi, (applyStandaloneOp mpm gemmId).main.lookup gemmId = some gi ∧
          (gi : Inst).op = Op.mlirOp gemm.op ∧ gi.modArgs = [mpm.mods.length]) := by
  constructor
  · intro hbad
    unfold applyStandaloneOp
    rw [hg]
    dsimp only
    rw [if_pos hbad]
  · intro hgood
    rcases hF : fuseInputOpsAndGemm MModule.empty mpm.main gemm.inputs gemm.op
      with ⟨mmF, aId, tops⟩
    have happ : applyStandaloneOp mpm gemmId =
        ⟨((mlirContiguous mpm.main tops).1.replaceWith gemmId (Op.mlirOp gemm.op)
            (mlirContiguous mpm.main tops).2 [mpm.mods.length]
            (mlirOpShapeD ((mlirContiguous mpm.main tops).2.map
              (mlirContiguous mpm.main tops).1.lookupShape)
              [(mmF.addInst ⟨Op.ret, default, [aId], []⟩).1])),
          mpm.mods ++ [(mmF.addInst ⟨Op.ret, default, [aId], []⟩).1]⟩ := by
      unfold applyStandaloneOp
      rw [hg]
      dsimp only
      rw [if_neg (by rw [hgood]; simp), hF]
    obtain ⟨added, anchorInst, hmm1, hai, hmodA, hadd⟩ :=
      fuseInputOpsAndGemm_struct MModule.empty mpm.main gemm.inputs gemm.op mmF aId tops hF
    rw [happ]
    refine ⟨(mmF.addInst ⟨Op.ret, default, [aId], []⟩).1, added, aId, anchorInst,
      mmF.nextId, ⟨Op.ret, default, [aId], []⟩, rfl, ?_, hai, rfl, rfl, hadd, ?_⟩
    · rw [addInst_insts, hmm1]
      simp [MModule.empty]
    · have hlt : gemmId < mpm.main.nextId := hwf _ (MModule.lookup_mem hg)
      obtain ⟨hk, hn, hpres⟩ := contigFold_pres tops mpm.main [] hwf
      refine ⟨⟨Op.mlirOp gemm.op,
        (mlirOpShapeD ((mlirContiguous mpm.main tops).2.map
          (mlirContiguous mpm.main tops).1.lookupShape)
          [(mmF.addInst ⟨Op.ret, default, [aId], []⟩).1]),
        (mlirContiguous mpm.main tops).2, [mpm.mods.length]⟩, ?_, rfl, rfl⟩
      rw [replaceWith_lookup, if_pos rfl]
      have : (mlirContiguous mpm.main tops).1.lookup gemmId = some gemm := by
        unfold mlirContiguous
        rw [hpres gemmId hlt, hg]
      rw [this]
      rfl

/-- A GEMM whose inputs have 64-bit float type (outside the allowed set). -/
def exF64MPM : MPM :=
  ⟨⟨[(0, ⟨Op.param 0, .t ⟨.float64, [2, 2], true, false⟩, [], []⟩),
     (1, ⟨Op.simple "dot", .t ⟨.float64, [2, 2], true, false⟩, [0, 0], []⟩)], 2⟩, []⟩

/-- Witness for C8: the standalone rule leaves the graph unchanged on a
float64 GEMM. -/
theorem claim_C8_witness :
    applyStandaloneOp exF64MPM 1 = exF64MPM :=
  (claim_C8 exF64MPM 1 ⟨Op.simple "dot", .t ⟨.float64, [2, 2], true, false⟩, [0, 0], []⟩
    (by decide) (by decide)).1 (by decide)

/-! ## Further structural lemmas for the pointwise-after-GEMM rule -/

lemma replayOps_keysLt (ops : List Op) :
    ∀ (mm : MModule) (prev : Nat), mm.KeysLt → (replayOps ops mm prev).1.KeysLt := by
  induction ops with
  | nil => intro mm prev h; exact h
  | cons op rest ih =>
    intro mm prev h
    exact ih _ _ (addInst_keysLt _ h)

lemma fuseInputFold_keysLt (main : MModule) :
    ∀ (inputs : List Nat) (mm : MModule) (imm tops : List Nat) (cnt : Nat), mm.KeysLt →
      (inputs.foldl (fuseInputStep main) (mm, imm, tops, cnt)).1.KeysLt := by
  intro inputs
  induction inputs with
  | nil => intro mm imm tops cnt h; exact h
  | cons input rest ih =>
    intro mm imm tops cnt h
    rw [List.foldl_cons]
    exact ih _ _ _ _ (replayOps_keysLt _ _ _ (addInst_keysLt _ h))

/-- The anchor instruction is the freshest entry of the region built by
`fuse_input_ops_and_gemm_based_op` and can be looked up by its returned
identifier. -/
lemma fuseInputOpsAndGemm_anchor (mm main : MModule) (gemmInputs : List Nat) (gemmOp : Op)
    (mm' : MModule) (aId : Nat) (tops : List Nat) (hk : mm.KeysLt)
    (h : fuseInputOpsAndGemm mm main gemmInputs gemmOp = (mm', aId, tops)) :
    mm'.KeysLt ∧ mm'.nextId = aId + 1 ∧
    ∃ anchorInst, mm'.lookup aId = some anchorInst ∧ (anchorInst : Inst).op = gemmOp := by
  unfold fuseInputOpsAndGemm at h
  rcases hFo : gemmInputs.foldl (fuseInputStep main) (mm, [], [], 0) with ⟨mmf, immf, topsf, cntf⟩
  rw [hFo] at h
  dsimp only at h
  injection h with ha hb
  injection hb with hb1 hb2
  subst ha
  subst hb1
  subst hb2
  have hkf : mmf.KeysLt := by
    have := fuseInputFold_keysLt main gemmInputs mm [] [] 0 hk
    rwa [hFo] at this
  refine ⟨addInst_keysLt _ hkf, rfl,
    ⟨⟨gemmOp, inferShape gemmOp (immf.map mmf.lookupShape), immf, []⟩, ?_, rfl⟩⟩
  unfold MModule.lookup
  dsimp only [MModule.addInst]
  rw [List.find?_append]
  rw [find?_key_none mmf.insts _ (fun p hp => Nat.ne_of_lt (hkf p hp))]
  simp [List.find?]

lemma lookup_append_pres {m m' : MModule} {added : List (Nat × Inst)}
    (h : m'.insts = m.insts ++ added) {j : Nat} {v : Inst} (hv : m.lookup j = some v) :
    m'.lookup j = some v := by
  unfold MModule.lookup at hv ⊢
  rw [h, List.find?_append]
  cases hf : m.insts.find? (fun p => p.1 == j) with
  | none => rw [hf] at hv; cases hv
  | some e =>
    rw [hf] at hv
    exact hv

lemma paramMapFold_insts (sh : MShape) :
    ∀ (L : List (Nat × Inst)) (acc : MModule × List (Nat × Nat)),
      ∃ added, (L.foldl (paramMapStep sh) acc).1.insts = acc.1.insts ++ added ∧
        (∀ q ∈ added, q.2.op.name = "@literal" ∨ q.2.op.name = "multibroadcast") ∧
        (acc.1.KeysLt → (L.foldl (paramMapStep sh) acc).1.KeysLt) := by
  intro L
  induction L with
  | nil => intro acc; exact ⟨[], by simp, by simp, id⟩
  | cons p t ih =>
    intro acc
    rw [List.foldl_cons]
    rcases acc with ⟨mm, mp⟩
    by_cases hp : p.2.op.name = "@literal"
    · have hstep : paramMapStep sh (mm, mp) p =
          ((mm.addInst ⟨Op.literal, p.2.shape, [], []⟩).1.addInst
            ⟨Op.multibroadcast sh.lens, inferShape (Op.multibroadcast sh.lens) [p.2.shape],
              [(mm.addInst ⟨Op.literal, p.2.shape, [], []⟩).2], []⟩ |>.1,
           mp ++ [(p.1, (mm.addInst ⟨Op.literal, p.2.shape, [], []⟩).1.addInst
            ⟨Op.multibroadcast sh.lens, inferShape (Op.multibroadcast sh.lens) [p.2.shape],
              [(mm.addInst ⟨Op.literal, p.2.shape, [], []⟩).2], []⟩ |>.2)]) := by
        unfold paramMapStep
        dsimp only
        rw [if_neg (by simp [hp])]
      rw [hstep]
      obtain ⟨added, h1, h2, h3⟩ := ih _
      refine ⟨(mm.nextId, ⟨Op.literal, p.2.shape, [], []⟩) ::
        (mm.nextId + 1, ⟨Op.multibroadcast sh.lens,
          inferShape (Op.multibroadcast sh.lens) [p.2.shape], [mm.nextId], []⟩) :: added,
        ?_, ?_, ?_⟩
      · rw [h1]
        dsimp only
        rw [addInst_insts, addInst_insts]
        simp [MModule.addInst]
      · intro q hq
        rcases List.mem_cons.mp hq with rfl | hq2
        · left; rfl
        rcases List.mem_cons.mp hq2 with rfl | hq3
        · right; rfl
        · exact h2 q hq3
      · intro hk
        exact h3 (addInst_keysLt _ (addInst_keysLt _ hk))
    · have hstep : paramMapStep sh (mm, mp) p = (mm, mp) := by
        unfold paramMapStep
        dsimp only
        rw [if_pos (by simp [hp])]
      rw [hstep]
      exact ih _

lemma fuseMFold_insts (main : MModule) (inputs : List Nat) :
    ∀ (L : List (Nat × Inst)) (acc : MModule × List Nat × List (Nat × Nat) × List (Nat × Nat)),
      ∃ added, (L.foldl (fuseMStep main inputs) acc).1.insts = acc.1.insts ++ added ∧
        (∀ q ∈ added, q.2.op.name ≠ "@return") ∧
        (acc.1.KeysLt → (L.foldl (fuseMStep main inputs) acc).1.KeysLt) := by
  intro L
  induction L with
  | nil => intro acc; exact ⟨[], by simp, by simp, id⟩
  | cons p t ih =>
    intro acc
    rw [List.foldl_cons]
    rcases acc with ⟨mm, rets, pmM, mainM⟩
    by_cases hp1 : p.2.op.name = "@param"
    · cases hl : lookupMap mainM (inputs.getD p.2.op.index 0) with
      | some w =>
        have hstep : fuseMStep main inputs (mm, rets, pmM, mainM) p =
            (mm, rets, pmM ++ [(p.1, w)], mainM) := by
          unfold fuseMStep
          dsimp only
          rw [if_pos hp1, hl]
        rw [hstep]
        exact ih _
      | none =>
        have hstep : fuseMStep main inputs (mm, rets, pmM, mainM) p =
            ((mm.addInst ⟨Op.param p.2.op.index,
                (main.lookupShape (inputs.getD p.2.op.index 0)).asStandard, [], []⟩).1,
              rets, pmM ++ [(p.1, mm.nextId)], mainM ++ [(inputs.getD p.2.op.index 0, mm.nextId)]) := by
          unfold fuseMStep
          dsimp only
          rw [if_pos hp1, hl]
          rfl
        rw [hstep]
        obtain ⟨added, h1, h2, h3⟩ := ih _
        refine ⟨(mm.nextId, ⟨Op.param p.2.op.index,
            (main.lookupShape (inputs.getD p.2.op.index 0)).asStandard, [], []⟩) :: added,
          ?_, ?_, ?_⟩
        · rw [h1, addInst_insts]
          simp
        · intro q hq
          rcases List.mem_cons.mp hq with rfl | hq2
          · simp [Op.param, Op.name]
          · exact h2 q hq2
        · intro hk
          exact h3 (addInst_keysLt _ hk)
    · by_cases hp2 : p.2.op.name = "@literal"
      · have hstep : fuseMStep main inputs (mm, rets, pmM, mainM) p = (mm, rets, pmM, mainM) := by
          unfold fuseMStep
          dsimp only
          rw [if_neg hp1, if_pos hp2]
        rw [hstep]
        exact ih _
      · by_cases hp3 : p.2.op.name = "@return"
        · have hstep : fuseMStep main inputs (mm, rets, pmM, mainM) p =
              (mm, p.2.inputs.map (fun j => (lookupMap pmM j).getD 0), pmM, mainM) := by
            unfold fuseMStep
            dsimp only
            rw [if_neg hp1, if_neg hp2, if_pos hp3]
          rw [hstep]
          exact ih _
        · have hstep : fuseMStep main inputs (mm, rets, pmM, mainM) p =
              ((mm.addInst ⟨p.2.op, p.2.shape,
                  p.2.inputs.map (fun j => (lookupMap pmM j).getD 0), []⟩).1,
                rets, pmM ++ [(p.1, mm.nextId)], mainM) := by
            unfold fuseMStep
            dsimp only
            rw [if_neg hp1, if_neg hp2, if_neg hp3]
            rfl
          rw [hstep]
          obtain ⟨added, h1, h2, h3⟩ := ih _
          refine ⟨(mm.nextId, ⟨p.2.op, p.2.shape,
              p.2.inputs.map (fun j => (lookupMap pmM j).getD 0), []⟩) :: added, ?_, ?_, ?_⟩
          · rw [h1, addInst_insts]
            simp
          · intro q hq
            rcases List.mem_cons.mp hq with rfl | hq2
            · exact hp3
            · exact h2 q hq2
          · intro hk
            exact h3 (addInst_keysLt _ hk)

/-- The return values accumulated by the region-splice walk: the mapped
operands of the last return instruction processed (empty when there is
none). -/
lemma fuseMFold_rets_length (main : MModule) (inputs : List Nat) :
    ∀ (L : List (Nat × Inst)) (acc : MModule × List Nat × List (Nat × Nat) × List (Nat × Nat)),
      ((L.foldl (fuseMStep main inputs) acc).2.1).length =
        match (L.filter (fun p => p.2.op.name == "@return")).getLast? with
        | some p => p.2.inputs.length
        | none => acc.2.1.length := by
  intro L
  induction L with
  | nil => intro acc; rfl
  | cons p t ih =>
    intro acc
    rw [List.foldl_cons]
    rcases acc with ⟨mm, rets, pmM, mainM⟩
    have hrets : (fuseMStep main inputs (mm, rets, pmM, mainM) p).2.1 =
        if p.2.op.name = "@return" then
          p.2.inputs.map (fun j => (lookupMap pmM j).getD 0)
        else rets := by
      unfold fuseMStep
      dsimp only
      by_cases hp1 : p.2.op.name = "@param"
      · rw [if_pos hp1, if_neg (by rw [hp1]; decide)]
        cases lookupMap mainM (inputs.getD p.2.op.index 0) <;> rfl
      · rw [if_neg hp1]
        by_cases hp2 : p.2.op.name = "@literal"
        · rw [if_pos hp2, if_neg (by rw [hp2]; decide)]
        · rw [if_neg hp2]
          by_cases hp3 : p.2.op.name = "@return"
          · rw [if_pos hp3, if_pos hp3]
          · rw [if_neg hp3, if_neg hp3]
    rw [ih]
    by_cases hp3 : p.2.op.name = "@return"
    · rw [List.filter_cons, if_pos (by simp [hp3])]
      cases hft : t.filter (fun q => q.2.op.name == "@return") with
      | nil => simp [hrets, hp3]
      | cons c cs =>
        rw [List.getLast?_cons_cons]
        cases hg : (c :: cs).getLast? with
        | none => simp at hg
        | some q => rfl
    · rw [List.filter_cons, if_neg (by simp [hp3])]
      cases hft : t.filter (fun q => q.2.op.name == "@return") with
      | nil => simp [hrets, hp3]
      | cons c cs =>
        cases hg : (c :: cs).getLast? with
        | none => simp at hg
        | some q => rfl

lemma replaceWith_keysLt (m : MModule) (pos : Nat) (op : Op) (inputs modArgs : List Nat)
    (sh : MShape) (h : m.KeysLt) : (m.replaceWith pos op inputs modArgs sh).KeysLt := by
  intro p hp
  unfold MModule.replaceWith at hp
  dsimp only at hp
  obtain ⟨q, hq, rfl⟩ := List.mem_map.mp hp
  by_cases hqe : q.1 = pos <;> simp [hqe] <;> [skip; exact h q hq]
  exact hqe ▸ h q hq

lemma lastReturn_addRet (m : MModule) (vals : List Nat) (sh : MShape)
    (h : ∀ p ∈ m.insts, p.2.op.name ≠ "@return") :
    (m.addInst ⟨Op.ret, sh, vals, []⟩).1.lastReturn = some vals := by
  unfold MModule.lastReturn
  rw [addInst_insts, List.filter_append]
  have hf : m.insts.filter (fun p => p.2.op.name == "@return") = [] := by
    rw [List.filter_eq_nil_iff]
    intro a ha
    simpa using h a ha
  rw [hf]
  simp [List.filter, Op.ret, Op.name]

/-! ## Claim C5: pointwise-after-GEMM fusion, tuple handling -/

/-- The multi-consumer conclusion of claim C5: the new sub-module's return
is a two-element tuple with the anchor (the re-created raw GEMM) at index 0
and the fused pointwise result at index 1; the pointwise instruction
becomes `get_tuple_elem` index 1 of the fused macro-node, a fresh
`get_tuple_elem` index 0 of it exists, the macro-node carries the new
sub-module, and every pre-existing instruction other than the pointwise one
survives with its uses of the GEMM redirected to the index-0 extraction (no
consumer is left dangling). -/
def C5MultiOut (mpm : MPM) (pwIns gemmId xId : Nat) (gemm : Inst) : Prop :=
  ∃ mm fusedId dotId anchorId r,
    (applyFusedOps mpm pwIns gemmId xId).mods = mpm.mods ++ [mm] ∧
    (mm : MModule).lastReturn = some [anchorId, r] ∧
    (∃ ai, mm.lookup anchorId = some ai ∧ (ai : Inst).op = gemm.op) ∧
    (∃ pi, (applyFusedOps mpm pwIns gemmId xId).main.lookup pwIns = some pi ∧
      (pi : Inst).op = Op.getTupleElem 1 ∧ pi.inputs = [fusedId]) ∧
    (∃ di, (applyFusedOps mpm pwIns gemmId xId).main.lookup dotId = some di ∧
      (di : Inst).op = Op.getTupleElem 0 ∧ di.inputs = [fusedId]) ∧
    (∃ fi, (applyFusedOps mpm pwIns gemmId xId).main.lookup fusedId = some fi ∧
      (fi : Inst).op = Op.mlirOp gemm.op ∧ fi.modArgs = [mpm.mods.length]) ∧
    (∀ j o, mpm.main.lookup j = some o → j ≠ pwIns →
      (applyFusedOps mpm pwIns gemmId xId).main.lookup j =
        some { o with inputs := o.inputs.map (fun t => if t == gemmId then dotId else t) })

/-- The single-consumer conclusion of claim C5: the new sub-module returns
only the fused pointwise result, and the pointwise instruction itself
becomes the macro-node. -/
def C5SingleOut (mpm : MPM) (pwIns gemmId xId : Nat) (gemm : Inst) : Prop :=
  ∃ mm r,
    (applyFusedOps mpm pwIns gemmId xId).mods = mpm.mods ++ [mm] ∧
    (mm : MModule).lastReturn = some [r] ∧
    (∃ pi, (applyFusedOps mpm pwIns gemmId xId).main.lookup pwIns = some pi ∧
      (pi : Inst).op = Op.mlirOp gemm.op ∧ pi.modArgs = [mpm.mods.length])

/-- C5: in pointwise-after-GEMM/convolution fusion, when the matched GEMM
(or a reshape on its chain to the pointwise instruction) has more than one
consumer, the fused macro-node returns a two-element tuple with the raw
GEMM result at index 0 and the pointwise result at index 1; the pointwise
consumer is replaced by `get_tuple_elem` index 1 and the original GEMM by
`get_tuple_elem` index 0, so no prior consumer is left dangling; with a
single consumer the macro-node returns only the pointwise result. -/
theorem claim_C5 (mpm : MPM) (pwIns gemmId xId : Nat) (pw gemm : Inst)
    (hwf : mpm.main.KeysLt)
    (hpw : mpm.main.lookup pwIns = some pw)
    (hg : mpm.main.lookup gemmId = some gemm)
    (hgname : gemm.op.name ≠ "@return")
    (hguard : pw.inputs.any (fun i => decide (i ≠ xId) && reaches mpm.main gemmId i) = false)
    (hret : ∃ rp, ((mpm.mods.getD (pw.modArgs.headD 0) MModule.empty).insts.filter
        (fun p => p.2.op.name == "@return")).getLast? = some rp ∧
        (rp : Nat × Inst).2.inputs.length = 1) :
    (gemmHasMultiOuts mpm.main gemmId xId = true → C5MultiOut mpm pwIns gemmId xId gemm) ∧
    (gemmHasMultiOuts mpm.main gemmId xId = false → C5SingleOut mpm pwIns gemmId xId gemm) := by
  rcases hF : fuseInputOpsAndGemm MModule.empty mpm.main gemm.inputs gemm.op
    with ⟨mmF, anchor, topInputs⟩
  rcases hC : createParamMapWithLiterals mmF
      (mpm.mods.getD (pw.modArgs.headD 0) MModule.empty) pw.shape
    with ⟨mmC, pmMap⟩
  rcases hR : replayOps (getFusableInputOpStream mpm.main xId).2.reverse mmC anchor
    with ⟨mmR, prev⟩
  rcases hFu : mmR.fuseM mpm.main (mpm.mods.getD (pw.modArgs.headD 0) MModule.empty)
      pw.inputs pmMap [(xId, prev)]
    with ⟨mmU, rets, pmM2, mainM2⟩
  rcases hCg : mlirContiguous mpm.main (pw.inputs.filter (fun i => i ≠ xId) ++ topInputs)
    with ⟨mainC, contig⟩
  -- facts about the region module chain
  have hkEmpty : MModule.empty.KeysLt := by intro p hp; cases hp
  obtain ⟨hkF, hnF, anchorI, hanchorLook, hanchorOp⟩ :=
    fuseInputOpsAndGemm_anchor MModule.empty mpm.main gemm.inputs gemm.op mmF anchor topInputs
      hkEmpty hF
  obtain ⟨added0, anchorI0, hS1, hSop, hSmod, hSnames⟩ :=
    fuseInputOpsAndGemm_struct MModule.empty mpm.main gemm.inputs gemm.op mmF anchor topInputs hF
  obtain ⟨addedC, hC1, hCnames, hCk⟩ :=
    paramMapFold_insts pw.shape (mpm.mods.getD (pw.modArgs.headD 0) MModule.empty).insts (mmF, [])
  rw [show (mpm.mods.getD (pw.modArgs.headD 0) MModule.empty).insts.foldl
      (paramMapStep pw.shape) (mmF, []) = (mmC, pmMap) from hC] at hC1 hCk
  dsimp only at hC1 hCk
  obtain ⟨addedR, hR1, hRops⟩ :=
    replayOps_insts (getFusableInputOpStream mpm.main xId).2.reverse mmC anchor
  rw [hR] at hR1
  dsimp only at hR1
  have hkR : mmR.KeysLt := by
    have := replayOps_keysLt (getFusableInputOpStream mpm.main xId).2.reverse mmC anchor
      (hCk hkF)
    rwa [hR] at this
  obtain ⟨addedU, hU1, hUnames, hUk⟩ :=
    fuseMFold_insts mpm.main pw.inputs
      (mpm.mods.getD (pw.modArgs.headD 0) MModule.empty).insts (mmR, [], pmMap, [(xId, prev)])
  rw [show (mpm.mods.getD (pw.modArgs.headD 0) MModule.empty).insts.foldl
      (fuseMStep mpm.main pw.inputs) (mmR, [], pmMap, [(xId, prev)]) = (mmU, rets, pmM2, mainM2)
      from hFu] at hU1 hUk
  dsimp only at hU1 hUk
  -- the pointwise region returns exactly one value
  have hrets1 : rets.length = 1 := by
    have hlen := fuseMFold_rets_length mpm.main pw.inputs
      (mpm.mods.getD (pw.modArgs.headD 0) MModule.empty).insts (mmR, [], pmMap, [(xId, prev)])
    rw [show (mpm.mods.getD (pw.modArgs.headD 0) MModule.empty).insts.foldl
        (fuseMStep mpm.main pw.inputs) (mmR, [], pmMap, [(xId, prev)]) = (mmU, rets, pmM2, mainM2)
        from hFu] at hlen
    dsimp only at hlen
    obtain ⟨rp, hrp, hrplen⟩ := hret
    rw [hrp] at hlen
    rw [hlen]
    exact hrplen
  obtain ⟨r, hrEq⟩ := List.length_eq_one.mp hrets1
  subst hrEq
  -- no instruction of the region (before add_return) is a return
  have hNoRet : ∀ p ∈ mmU.insts, p.2.op.name ≠ "@return" := by
    intro p hp
    rw [hU1] at hp
    rcases List.mem_append.mp hp with hp2 | hp2
    · rw [hR1] at hp2
      rcases List.mem_append.mp hp2 with hp3 | hp3
      · rw [hC1] at hp3
        rcases List.mem_append.mp hp3 with hp4 | hp4
        · rw [hS1] at hp4
          rcases List.mem_append.mp hp4 with hp5 | hp5
          · rcases List.mem_append.mp hp5 with hp6 | hp6
            · cases hp6
            · rcases hSnames p hp6 with hn | hn
              · rw [hn]; decide
              · intro hcon
                rw [hcon] at hn
                exact absurd hn (by decide)
          · simp only [List.mem_singleton] at hp5
            subst hp5
            rw [hSop]
            exact hgname
        · rcases hCnames p hp4 with hn | hn <;> rw [hn] <;> decide
      · have hop := hRops p hp3
        rw [List.mem_reverse] at hop
        have hmem := getStreamFuel_ops mpm.main _ _ _ hop
        intro hcon
        rw [hcon] at hmem
        exact absurd hmem (by decide)
    · exact hUnames p hp2
  -- the anchor can still be looked up in the completed region
  have hanchorU : mmU.lookup anchor = some anchorI :=
    lookup_append_pres hU1 (lookup_append_pres hR1 (lookup_append_pres hC1 hanchorLook))
  -- surrounding-module bookkeeping
  have hPwLt : pwIns < mpm.main.nextId := hwf _ (MModule.lookup_mem hpw)
  have hGLt : gemmId < mpm.main.nextId := hwf _ (MModule.lookup_mem hg)
  obtain ⟨hkC0, hnC0, hpresC0⟩ :=
    contigFold_pres (pw.inputs.filter (fun i => i ≠ xId) ++ topInputs) mpm.main [] hwf
  rw [show (pw.inputs.filter (fun i => i ≠ xId) ++ topInputs).foldl contigStep (mpm.main, []) =
      (mainC, contig) from hCg] at hkC0 hnC0 hpresC0
  dsimp only at hkC0 hnC0 hpresC0
  have hLookPwC : mainC.lookup pwIns = some pw := by rw [hpresC0 pwIns hPwLt, hpw]
  have hPwNeC : pwIns ≠ mainC.nextId := by omega
  have hPwNeC1 : pwIns ≠ mainC.nextId + 1 := by omega
  have hGneN : (mainC.nextId == gemmId) = false := by
    have : ¬(mainC.nextId = gemmId) := by omega
    simpa using this
  constructor
  · -- multi-consumer case
    intro hmulti
    have happ : applyFusedOps mpm pwIns gemmId xId =
        (let mm := (mmU.addInst ⟨Op.ret, default, anchor :: [r], []⟩).1
         let fsh := mlirOpShapeD (contig.map mainC.lookupShape) [mm]
         let main1 := (mainC.insertBefore pwIns
             ⟨Op.mlirOp gemm.op, fsh, contig, [mpm.mods.length]⟩).1
         let main2 := main1.replaceWith pwIns (Op.getTupleElem 1) [mainC.nextId] []
             (inferShape (Op.getTupleElem 1) [fsh])
         let main3 := (main2.insertBefore pwIns
             ⟨Op.getTupleElem 0, inferShape (Op.getTupleElem 0) [fsh],
               [mainC.nextId], []⟩).1
         let main4 := (chainTo mpm.main xId gemmId).reverse.foldl
             (fun mo rs => mo.moveInstruction rs pwIns) main3
         (⟨main4.replaceUses gemmId (mainC.nextId + 1), mpm.mods ++ [mm]⟩ : MPM)) := by
      unfold applyFusedOps
      rw [hpw, hg]
      dsimp only
      rw [if_neg (by rw [hguard]; simp), hF]
      dsimp only
      rw [hC]
      dsimp only
      rw [hR]
      dsimp only
      rw [hFu, hmulti]
      dsimp only
      rw [hCg]
      rfl
    unfold C5MultiOut
    rw [happ]
    dsimp only
    set mmX := (mmU.addInst ⟨Op.ret, default, anchor :: [r], []⟩).1 with hmmX
    set fsh := mlirOpShapeD (contig.map mainC.lookupShape) [mmX] with hfsh
    set fusedI : Inst := ⟨Op.mlirOp gemm.op, fsh, contig, [mpm.mods.length]⟩ with hfusedI
    set main1 := (mainC.insertBefore pwIns fusedI).1 with hmain1
    set main2 := main1.replaceWith pwIns (Op.getTupleElem 1) [mainC.nextId] []
      (inferShape (Op.getTupleElem 1) [fsh]) with hmain2
    set dotI : Inst := ⟨Op.getTupleElem 0, inferShape (Op.getTupleElem 0) [fsh],
      [mainC.nextId], []⟩ with hdotI
    set main3 := (main2.insertBefore pwIns dotI).1 with hmain3
    set main4 := (chainTo mpm.main xId gemmId).reverse.foldl
      (fun mo rs => mo.moveInstruction rs pwIns) main3 with hmain4
    have hn1 : main1.nextId = mainC.nextId + 1 := rfl
    have hn2 : main2.nextId = mainC.nextId + 1 := rfl
    have hk1 : main1.KeysLt := by
      rw [hmain1]
      exact insertBefore_keysLt _ _ hkC0
    have hk2 : main2.KeysLt := by
      rw [hmain2]
      exact replaceWith_keysLt _ _ _ _ _ _ hk1
    -- the pointwise instruction after all rewrites
    have hPw1 : main1.lookup pwIns = some pw := by
      rw [hmain1, insertBefore_lookup_ne _ _ _ _ hPwNeC]
      exact hLookPwC
    have hPw2 : main2.lookup pwIns =
        some ⟨Op.getTupleElem 1, inferShape (Op.getTupleElem 1) [fsh], [mainC.nextId], []⟩ := by
      rw [hmain2, replaceWith_lookup, if_pos rfl, hPw1]
      rfl
    have hPw3 : main3.lookup pwIns =
        some ⟨Op.getTupleElem 1, inferShape (Op.getTupleElem 1) [fsh], [mainC.nextId], []⟩ := by
      rw [hmain3, insertBefore_lookup_ne _ _ _ _ (by rw [hn2]; exact hPwNeC1)]
      exact hPw2
    have hPw4 : main4.lookup pwIns =
        some ⟨Op.getTupleElem 1, inferShape (Op.getTupleElem 1) [fsh], [mainC.nextId], []⟩ := by
      rw [hmain4, movesFold_lookup]
      exact hPw3
    -- the fresh get_tuple_elem 0
    have hDot3 : main3.lookup (mainC.nextId + 1) = some dotI := by
      rw [hmain3]
      have := insertBefore_lookup_new main2 pwIns dotI hk2
      rwa [hn2] at this
    have hDot4 : main4.lookup (mainC.nextId + 1) = some dotI := by
      rw [hmain4, movesFold_lookup]
      exact hDot3
    -- the fused macro-node
    have hFused1 : main1.lookup mainC.nextId = some fusedI := by
      rw [hmain1]
      exact insertBefore_lookup_new mainC pwIns fusedI hkC0
    have hFused2 : main2.lookup mainC.nextId = some fusedI := by
      rw [hmain2, replaceWith_lookup, if_neg (by omega)]
      exact hFused1
    have hFused3 : main3.lookup mainC.nextId = some fusedI := by
      rw [hmain3, insertBefore_lookup_ne _ _ _ _ (by rw [hn2]; omega)]
      exact hFused2
    have hFused4 : main4.lookup mainC.nextId = some fusedI := by
      rw [hmain4, movesFold_lookup]
      exact hFused3
    refine ⟨mmX, mainC.nextId, mainC.nextId + 1, anchor, r, rfl, ?_,
      ⟨anchorI, ?_, hanchorOp⟩, ?_, ?_, ?_, ?_⟩
    · rw [hmmX]
      exact lastReturn_addRet mmU (anchor :: [r]) default hNoRet
    · rw [hmmX]
      exact lookup_append_pres (addInst_insts mmU _) hanchorU
    · refine ⟨⟨Op.getTupleElem 1, inferShape (Op.getTupleElem 1) [fsh],
        [mainC.nextId].map (fun t => if t == gemmId then mainC.nextId + 1 else t), []⟩,
        ?_, rfl, ?_⟩
      · rw [replaceUses_lookup, hPw4]
        rfl
      · simp only [List.map_singleton, hGneN, Bool.false_eq_true, if_false]
    · refine ⟨⟨Op.getTupleElem 0, inferShape (Op.getTupleElem 0) [fsh],
        [mainC.nextId].map (fun t => if t == gemmId then mainC.nextId + 1 else t), []⟩,
        ?_, rfl, ?_⟩
      · rw [replaceUses_lookup, hDot4]
        rfl
      · simp only [List.map_singleton, hGneN, Bool.false_eq_true, if_false]
    · refine ⟨⟨Op.mlirOp gemm.op, fsh,
        contig.map (fun t => if t == gemmId then mainC.nextId + 1 else t),
        [mpm.mods.length]⟩, ?_, rfl, rfl⟩
      rw [replaceUses_lookup, hFused4]
      rfl
    · intro j o hjo hjne
      have hjLt : j < mpm.main.nextId := hwf _ (MModule.lookup_mem hjo)
      have hj1 : main1.lookup j = some o := by
        rw [hmain1, insertBefore_lookup_ne _ _ _ _ (by omega), hpresC0 j hjLt]
        exact hjo
      have hj2 : main2.lookup j = some o := by
        rw [hmain2, replaceWith_lookup, if_neg hjne]
        exact hj1
      have hj3 : main3.lookup j = some o := by
        rw [hmain3, insertBefore_lookup_ne _ _ _ _ (by rw [hn2]; omega)]
        exact hj2
      have hj4 : main4.lookup j = some o := by
        rw [hmain4, movesFold_lookup]
        exact hj3
      rw [replaceUses_lookup, hj4]
      rfl
  · -- single-consumer case
    intro hmulti
    have happ : applyFusedOps mpm pwIns gemmId xId =
        (let mm := (mmU.addInst ⟨Op.ret, default, [r], []⟩).1
         let fsh := mlirOpShapeD (contig.map mainC.lookupShape) [mm]
         (⟨mainC.replaceWith pwIns (Op.mlirOp gemm.op) contig [mpm.mods.length] fsh,
           mpm.mods ++ [mm]⟩ : MPM)) := by
      unfold applyFusedOps
      rw [hpw, hg]
      dsimp only
      rw [if_neg (by rw [hguard]; simp), hF]
      dsimp only
      rw [hC]
      dsimp only
      rw [hR]
      dsimp only
      rw [hFu, hmulti]
      dsimp only
      rw [hCg]
      rfl
    unfold C5SingleOut
    rw [happ]
    dsimp only
    refine ⟨(mmU.addInst ⟨Op.ret, default, [r], []⟩).1, r, rfl, ?_,
      ⟨⟨Op.mlirOp gemm.op, mlirOpShapeD (contig.map mainC.lookupShape)
          [(mmU.addInst ⟨Op.ret, default, [r], []⟩).1], contig, [mpm.mods.length]⟩,
        ?_, rfl, rfl⟩⟩
    · exact lastReturn_addRet mmU [r] default hNoRet
    · rw [replaceWith_lookup, if_pos rfl, hLookPwC]
      rfl

/-- A concrete match for the multi-consumer case: the `dot` at id 1 feeds
both the pointwise instruction (id 3) and a separate `relu` (id 2). -/
def exC5MPM : MPM :=
  ⟨⟨[(0, ⟨Op.param 0, .t ⟨.float32, [2, 2], true, false⟩, [], []⟩),
     (1, ⟨Op.simple "dot", .t ⟨.float32, [2, 2], true, false⟩, [0, 0], []⟩),
     (2, ⟨Op.simple "relu", .t ⟨.float32, [2, 2], true, false⟩, [1], []⟩),
     (3, ⟨Op.simple "pointwise", .t ⟨.float32, [2, 2], true, false⟩, [1], [0]⟩)], 4⟩,
   [⟨[(0, ⟨Op.param 0, .t ⟨.float32, [2, 2], true, false⟩, [], []⟩),
      (1, ⟨Op.simple "abs", .t ⟨.float32, [2, 2], true, false⟩, [0], []⟩),
      (2, ⟨Op.ret, .t ⟨.float32, [], true, false⟩, [1], []⟩)], 3⟩]⟩

/-- Witness for C5 at the concrete two-consumer match: the fused module
returns the tuple and both consumers are redirected. -/
theorem claim_C5_witness :
    C5MultiOut exC5MPM 3 1 1 ⟨Op.simple "dot", .t ⟨.float32, [2, 2], true, false⟩, [0, 0], []⟩ :=
  (claim_C5 exC5MPM 3 1 1
    ⟨Op.simple "pointwise", .t ⟨.float32, [2, 2], true, false⟩, [1], [0]⟩
    ⟨Op.simple "dot", .t ⟨.float32, [2, 2], true, false⟩, [0, 0], []⟩
    (by decide) (by decide) (by decide) (by decide) (by decide)
    ⟨(2, ⟨Op.ret, .t ⟨.float32, [], true, false⟩, [1], []⟩), by decide, by decide⟩).1
    (by decide)
